import Mathlib

/-!
Shallow embedding of the trademark-record normalization core
(`src/data_transformer.py`, `src/data_cleaner.py`) of the pilot-project
repository, together with theorems settling the frozen claims.

Python values are modelled by the inductive type `Value` (JSON-like, plus a
datetime constructor for the `isinstance(date_value, datetime)` branch of
`_normalize_date`).  Python `dict`s are insertion-ordered association lists
with unique keys; `dict.__setitem__` updates the first occurrence in place
and appends fresh keys at the end, exactly as in CPython.  Code that can
raise an exception (AttributeError / TypeError on wrongly-typed values) is
embedded in `Option`, with `none` standing for a raised exception.
-/

namespace Trademark

/-- Python runtime values as they occur in the record pipeline. -/
inductive Value where
  | null : Value
  | bool : Bool → Value
  | int : Int → Value
  | str : String → Value
  | list : List Value → Value
  | obj : List (String × Value) → Value
  | dtime : Nat → Nat → Nat → Nat → Nat → Nat → Value

mutual

/-- Boolean equality on values (Python `==` restricted to same-type
comparisons; cross-type comparisons are `False`, which matches Python for
every pair of types the pipeline actually compares). -/
def Value.beq : Value → Value → Bool
  | .null, .null => true
  | .bool a, .bool b => a == b
  | .int a, .int b => a == b
  | .str a, .str b => a == b
  | .list xs, .list ys => beqVList xs ys
  | .obj xs, .obj ys => beqVObj xs ys
  | .dtime a b c d e f, .dtime a' b' c' d' e' f' =>
      a == a' && b == b' && c == c' && d == d' && e == e' && f == f'
  | _, _ => false

def beqVList : List Value → List Value → Bool
  | [], [] => true
  | x :: xs, y :: ys => Value.beq x y && beqVList xs ys
  | _, _ => false

def beqVObj : List (String × Value) → List (String × Value) → Bool
  | [], [] => true
  | (k, x) :: xs, (k', y) :: ys => k == k' && Value.beq x y && beqVObj xs ys
  | _, _ => false

end

mutual

theorem Value.eq_of_beq : ∀ {a b : Value}, Value.beq a b = true → a = b
  | .null, .null, _ => rfl
  | .bool _, .bool _, h => by
      simp only [Value.beq, beq_iff_eq] at h; rw [h]
  | .int _, .int _, h => by
      simp only [Value.beq, beq_iff_eq] at h; rw [h]
  | .str _, .str _, h => by
      simp only [Value.beq, beq_iff_eq] at h; rw [h]
  | .list xs, .list ys, h => by
      simp only [Value.beq] at h; rw [eqVList_of_beq h]
  | .obj xs, .obj ys, h => by
      simp only [Value.beq] at h; rw [eqVObj_of_beq h]
  | .dtime _ _ _ _ _ _, .dtime _ _ _ _ _ _, h => by
      simp only [Value.beq, Bool.and_eq_true, beq_iff_eq] at h
      obtain ⟨⟨⟨⟨⟨h1, h2⟩, h3⟩, h4⟩, h5⟩, h6⟩ := h
      rw [h1, h2, h3, h4, h5, h6]

theorem eqVList_of_beq : ∀ {xs ys : List Value}, beqVList xs ys = true → xs = ys
  | [], [], _ => rfl
  | x :: xs, y :: ys, h => by
      simp only [beqVList, Bool.and_eq_true] at h
      rw [Value.eq_of_beq h.1, eqVList_of_beq h.2]

theorem eqVObj_of_beq :
    ∀ {xs ys : List (String × Value)}, beqVObj xs ys = true → xs = ys
  | [], [], _ => rfl
  | (k, x) :: xs, (k', y) :: ys, h => by
      simp only [beqVObj, Bool.and_eq_true, beq_iff_eq] at h
      rw [h.1.1, Value.eq_of_beq h.1.2, eqVObj_of_beq h.2]

end

mutual

theorem Value.beq_refl : ∀ (a : Value), Value.beq a a = true
  | .null => rfl
  | .bool _ => by simp [Value.beq]
  | .int _ => by simp [Value.beq]
  | .str _ => by simp [Value.beq]
  | .list xs => by simp only [Value.beq]; exact beqVList_refl xs
  | .obj xs => by simp only [Value.beq]; exact beqVObj_refl xs
  | .dtime _ _ _ _ _ _ => by simp [Value.beq]

theorem beqVList_refl : ∀ (xs : List Value), beqVList xs xs = true
  | [] => rfl
  | x :: xs => by
      simp only [beqVList, Bool.and_eq_true]
      exact ⟨Value.beq_refl x, beqVList_refl xs⟩

theorem beqVObj_refl : ∀ (xs : List (String × Value)), beqVObj xs xs = true
  | [] => rfl
  | (k, x) :: xs => by
      simp only [beqVObj, Bool.and_eq_true]
      exact ⟨⟨by simp, Value.beq_refl x⟩, beqVObj_refl xs⟩

end

instance : DecidableEq Value := fun a b =>
  decidable_of_iff (Value.beq a b = true)
    ⟨Value.eq_of_beq, fun h => h ▸ Value.beq_refl a⟩

/-- A Python dict: insertion-ordered association list (keys unique in any
dict actually built by the code). -/
abbrev Obj := List (String × Value)

/-- Python truthiness (`bool(v)`). -/
def Value.truthy : Value → Bool
  | .null => false
  | .bool b => b
  | .int n => n != 0
  | .str s => s ≠ ""
  | .list xs => !xs.isEmpty
  | .obj fs => !fs.isEmpty
  | .dtime _ _ _ _ _ _ => true

/-- `d[k]` lookup returning the first binding (CPython dicts have unique
keys, so "first" is exact). -/
def getv : Obj → String → Option Value
  | [], _ => none
  | (k', v) :: t, k => if k' = k then some v else getv t k

/-- `d[k] = v`: update in place if the key exists, else append. -/
def setv : Obj → String → Value → Obj
  | [], k, v => [(k, v)]
  | (k', v') :: t, k, v => if k' = k then (k', v) :: t else (k', v') :: setv t k v

/-- `d.update(other)`: fold `setv` over the entries of `other` in order. -/
def updatev (o entries : Obj) : Obj :=
  entries.foldl (fun acc kv => setv acc kv.1 kv.2) o

/-- `d.pop(k)`: remove the first binding of `k`. -/
def popv : Obj → String → Obj
  | [], _ => []
  | (k', v') :: t, k => if k' = k then t else (k', v') :: popv t k

/-- `k in d`. -/
def hasKey (o : Obj) (k : String) : Bool := (getv o k).isSome

/-- Python `a or b` on values: `a` if truthy, else `b`. -/
def orV (a b : Value) : Value := if a.truthy then a else b

/-- `d.get(k)` (default `None`). -/
def getD (o : Obj) (k : String) : Value := (getv o k).getD .null

/-! ### Text utilities

`str.strip()`, the regex `\s`, `str.upper()/.lower()` are modelled over the
ASCII whitespace/letter ranges (the pipeline's data is ASCII-keyed; the
Unicode extensions of these Python operations agree with the model there).
-/

/-- Characters matched by Python's `\s` / stripped by `str.strip()`
(ASCII part): space, tab, newline, carriage return, vertical tab, form
feed. -/
def isPySpace (c : Char) : Bool :=
  c.toNat = 32 || c.toNat = 9 || c.toNat = 10 || c.toNat = 13 ||
    c.toNat = 11 || c.toNat = 12

/-- ASCII lower-casing (`'A'..'Z'` is 65–90), as done by `re.IGNORECASE`
and `str.lower()`. -/
def pyLowerChar (c : Char) : Char :=
  if 65 ≤ c.toNat ∧ c.toNat ≤ 90 then Char.ofNat (c.toNat + 32) else c

/-- ASCII upper-casing (`'a'..'z'` is 97–122, `str.upper()`). -/
def pyUpperChar (c : Char) : Char :=
  if 97 ≤ c.toNat ∧ c.toNat ≤ 122 then Char.ofNat (c.toNat - 32) else c

def pyLower (s : String) : String := String.mk (s.data.map pyLowerChar)

def pyUpper (s : String) : String := String.mk (s.data.map pyUpperChar)

/-- Drop a trailing whitespace run (structural helper for `str.strip()`). -/
def dropTrailWS : List Char → List Char
  | [] => []
  | c :: cs =>
    let r := dropTrailWS cs
    if r.isEmpty && isPySpace c then [] else c :: r

/-- `str.strip()`: drop leading then trailing whitespace. -/
def pyStripChars (cs : List Char) : List Char :=
  dropTrailWS (cs.dropWhile isPySpace)

def pyStrip (s : String) : String := String.mk (pyStripChars s.data)

theorem dropWhileLenLe {α : Type} (p : α → Bool) :
    ∀ l : List α, (l.dropWhile p).length ≤ l.length
  | [] => Nat.le_refl _
  | a :: l => by
      rw [List.dropWhile_cons]
      split
      · exact Nat.le_succ_of_le (dropWhileLenLe p l)
      · exact Nat.le_refl _

/-- Structural worker for `re.sub(r'\s+', ' ', ·)`: the flag records
whether we are inside a whitespace run whose single `' '` has already been
emitted. -/
def collapseWSAux : Bool → List Char → List Char
  | _, [] => []
  | inWS, c :: cs =>
    if isPySpace c then
      if inWS then collapseWSAux true cs else ' ' :: collapseWSAux true cs
    else c :: collapseWSAux false cs

/-- `re.sub(r'\s+', ' ', ·)`: collapse every whitespace run to one space. -/
def collapseWS (cs : List Char) : List Char := collapseWSAux false cs

/-- `_normalize_text` on a string: `re.sub(r'\s+', ' ', text.strip())`.
Both `DataCleaner._normalize_text` and `DataTransformer._normalize_text`
compute exactly this on string input. -/
def normText (s : String) : String := String.mk (collapseWS (pyStripChars s.data))

/-- `_normalize_text` lifted to values: non-strings and falsy values are
returned unchanged (the `if not text or not isinstance(text, str)` guard). -/
def normalizeTextV (v : Value) : Value :=
  match v with
  | .str s => if s = "" then v else .str (normText s)
  | _ => v

/-- Zero-padded decimal rendering of width 2. -/
def pad2 (n : Nat) : String :=
  if n < 10 then "0" ++ toString n else toString n

/-- Zero-padded decimal rendering of width 4 (the model of `strftime("%Y")`;
CPython delegates `%Y` to the platform, which may not zero-pad years below
1000 — every date the claims exercise has a 4-digit year). -/
def pad4 (n : Nat) : String :=
  if n < 10 then "000" ++ toString n
  else if n < 100 then "00" ++ toString n
  else if n < 1000 then "0" ++ toString n
  else toString n

/-- `dt.strftime("%Y-%m-%d")`. -/
def renderDate (y m d : Nat) : String := pad4 y ++ "-" ++ pad2 m ++ "-" ++ pad2 d

mutual

/-- Python `repr(v)` (best effort: string escaping inside `repr` of a `str`
is not modelled; the pipeline only ever feeds reprs to a free-text scan). -/
def pyRepr : Value → String
  | .null => "None"
  | .bool b => if b then "True" else "False"
  | .int n => toString n
  | .str s => "'" ++ s ++ "'"
  | .list xs => "[" ++ ", ".intercalate (pyReprList xs) ++ "]"
  | .obj fs => "\x7b" ++ ", ".intercalate (pyReprObj fs) ++ "\x7d"
  | .dtime y mo d h mi s =>
      "datetime.datetime(" ++ toString y ++ ", " ++ toString mo ++ ", " ++
        toString d ++ ", " ++ toString h ++ ", " ++ toString mi ++ ", " ++
        toString s ++ ")"

def pyReprList : List Value → List String
  | [] => []
  | v :: vs => pyRepr v :: pyReprList vs

def pyReprObj : List (String × Value) → List String
  | [] => []
  | (k, v) :: fs => ("'" ++ k ++ "': " ++ pyRepr v) :: pyReprObj fs

end

/-- Python `str(v)`. -/
def pyStr : Value → String
  | .null => "None"
  | .bool b => if b then "True" else "False"
  | .int n => toString n
  | .str s => s
  | .list xs => pyRepr (.list xs)
  | .obj fs => pyRepr (.obj fs)
  | .dtime y mo d h mi s =>
      renderDate y mo d ++ " " ++ pad2 h ++ ":" ++ pad2 mi ++ ":" ++ pad2 s

/-! ### `DataTransformer._normalize_date`

`datetime.strptime` is modelled per format directive, following CPython's
`_strptime.TimeRE` regexes: `%Y` is exactly four digits; `%m`/`%d`/`%H`/
`%M`/`%S` prefer a two-digit match when its value is in range and fall back
to one digit; `%B`/`%b` match month names case-insensitively; literal
characters match case-insensitively (the whole regex is compiled with
`IGNORECASE`); a whitespace run in the format matches one-or-more input
whitespace; the entire input must be consumed.  A successful match is then
validated exactly as the `datetime` constructor does (year ≥ 1, day within
the month, seconds ≤ 59 — the `%S` regex admits 60/61 but `datetime`
rejects them), a failure moving on to the next format. -/

def leapYear (y : Nat) : Bool := y % 4 = 0 && (y % 100 ≠ 0 || y % 400 = 0)

def daysInMonth (y m : Nat) : Nat :=
  if m = 2 then (if leapYear y then 29 else 28)
  else if m = 4 ∨ m = 6 ∨ m = 9 ∨ m = 11 then 30
  else 31

def digitVal (c : Char) : Nat := c.toNat - 48

/-- Two-digits-preferred numeric field (`%m`, `%d`, `%H`, `%M`, `%S`).
`lo` is the least value a match may take (1 for `%m`/`%d`, 0 for the time
fields), `hiTwo` the greatest value a two-digit match may take. -/
def parseNumField (lo hiTwo : Nat) : List Char → Option (Nat × List Char)
  | c1 :: c2 :: rest =>
    if c1.isDigit then
      if c2.isDigit ∧ lo ≤ digitVal c1 * 10 + digitVal c2 ∧
          digitVal c1 * 10 + digitVal c2 ≤ hiTwo then
        some (digitVal c1 * 10 + digitVal c2, rest)
      else if lo ≤ digitVal c1 then some (digitVal c1, c2 :: rest)
      else none
    else none
  | [c1] => if c1.isDigit ∧ lo ≤ digitVal c1 then some (digitVal c1, []) else none
  | [] => none

/-- `%Y`: exactly four digits. -/
def parseYear4 : List Char → Option (Nat × List Char)
  | c1 :: c2 :: c3 :: c4 :: rest =>
    if c1.isDigit ∧ c2.isDigit ∧ c3.isDigit ∧ c4.isDigit then
      some (((digitVal c1 * 10 + digitVal c2) * 10 + digitVal c3) * 10 +
        digitVal c4, rest)
    else none
  | _ => none

def monthNamesFull : List (String × Nat) :=
  [("january", 1), ("february", 2), ("march", 3), ("april", 4), ("may", 5),
   ("june", 6), ("july", 7), ("august", 8), ("september", 9), ("october", 10),
   ("november", 11), ("december", 12)]

def monthNamesAbbr : List (String × Nat) :=
  [("jan", 1), ("feb", 2), ("mar", 3), ("apr", 4), ("may", 5), ("jun", 6),
   ("jul", 7), ("aug", 8), ("sep", 9), ("oct", 10), ("nov", 11), ("dec", 12)]

/-- Case-insensitive month-name match (no name in either table is a prefix
of another, so first-match equals CPython's longest-match). -/
def parseMonthName (names : List (String × Nat)) (cs : List Char) :
    Option (Nat × List Char) :=
  match names with
  | [] => none
  | (nm, v) :: rest =>
    if (cs.take nm.length).map pyLowerChar = nm.data then
      some (v, cs.drop nm.length)
    else parseMonthName rest cs

/-- One `strptime` format directive. -/
inductive FTok where
  | lit : Char → FTok
  | ws : FTok
  | year : FTok
  | mon : FTok
  | day : FTok
  | hour : FTok
  | minute : FTok
  | second : FTok
  | monFull : FTok
  | monAbbr : FTok

structure DateParts where
  y : Nat := 1900
  mo : Nat := 1
  da : Nat := 1
  se : Nat := 0

def runFTok (acc : DateParts) (cs : List Char) :
    FTok → Option (DateParts × List Char)
  | .lit c =>
    match cs with
    | [] => none
    | c' :: rest => if pyLowerChar c' = pyLowerChar c then some (acc, rest) else none
  | .ws =>
    match cs with
    | [] => none
    | c' :: rest =>
      if isPySpace c' then some (acc, rest.dropWhile isPySpace) else none
  | .year => (parseYear4 cs).map fun (v, r) => ({acc with y := v}, r)
  | .mon => (parseNumField 1 12 cs).map fun (v, r) => ({acc with mo := v}, r)
  | .day => (parseNumField 1 31 cs).map fun (v, r) => ({acc with da := v}, r)
  | .hour => (parseNumField 0 23 cs).map fun (_, r) => (acc, r)
  | .minute => (parseNumField 0 59 cs).map fun (_, r) => (acc, r)
  | .second => (parseNumField 0 61 cs).map fun (v, r) => ({acc with se := v}, r)
  | .monFull => (parseMonthName monthNamesFull cs).map fun (v, r) => ({acc with mo := v}, r)
  | .monAbbr => (parseMonthName monthNamesAbbr cs).map fun (v, r) => ({acc with mo := v}, r)

def runFormat (acc : DateParts) : List FTok → List Char → Option DateParts
  | [], cs => if cs.isEmpty then some acc else none
  | t :: ts, cs =>
    match runFTok acc cs t with
    | none => none
    | some (acc', rest) => runFormat acc' ts rest

/-- `strptime` then the `datetime` constructor's validation. -/
def tryFormat (toks : List FTok) (cs : List Char) : Option (Nat × Nat × Nat) :=
  match runFormat {} toks cs with
  | none => none
  | some p =>
    if 1 ≤ p.y ∧ 1 ≤ p.da ∧ p.da ≤ daysInMonth p.y p.mo ∧ p.se ≤ 59 then
      some (p.y, p.mo, p.da)
    else none

/-- The `date_formats` list of `_normalize_date`, in source order. -/
def dateFormats : List (List FTok) :=
  [ [.year, .lit '-', .mon, .lit '-', .day],                               -- %Y-%m-%d
    [.year, .lit '/', .mon, .lit '/', .day],                               -- %Y/%m/%d
    [.mon, .lit '/', .day, .lit '/', .year],                               -- %m/%d/%Y
    [.day, .lit '/', .mon, .lit '/', .year],                               -- %d/%m/%Y
    [.day, .lit '.', .mon, .lit '.', .year],                               -- %d.%m.%Y
    [.day, .lit '-', .mon, .lit '-', .year],                               -- %d-%m-%Y
    [.year, .lit '-', .mon, .lit '-', .day, .lit 'T',
      .hour, .lit ':', .minute, .lit ':', .second],                        -- %Y-%m-%dT%H:%M:%S
    [.year, .lit '-', .mon, .lit '-', .day, .lit 'T',
      .hour, .lit ':', .minute, .lit ':', .second, .lit 'Z'],              -- %Y-%m-%dT%H:%M:%SZ
    [.year, .lit '-', .mon, .lit '-', .day, .ws,
      .hour, .lit ':', .minute, .lit ':', .second],                        -- %Y-%m-%d %H:%M:%S
    [.monFull, .ws, .day, .lit ',', .ws, .year],                           -- %B %d, %Y
    [.monAbbr, .ws, .day, .lit ',', .ws, .year],                           -- %b %d, %Y
    [.day, .ws, .monFull, .ws, .year],                                     -- %d %B %Y
    [.day, .ws, .monAbbr, .ws, .year] ]                                    -- %d %b %Y

def tryFormats (cs : List Char) : Option (Nat × Nat × Nat) :=
  dateFormats.findSome? (fun f => tryFormat f cs)

/-- The outcome of `datetime.fromtimestamp(t)`: a civil date, or one of
the three exceptions its failure paths raise (they are caught differently
at the two call sites of `_normalize_date`, so they must stay distinct). -/
inductive DtResult where
  | ok (y m d : Nat)
  /-- `ValueError`: `localtime` succeeded but the year is outside
  `MINYEAR..MAXYEAR` (1..9999). -/
  | errValue
  /-- `OSError`: the timestamp fits `time_t` but `localtime` fails because
  `tm_year` (`year - 1900`, a C `int`) overflows. -/
  | errOS
  /-- `OverflowError`: the timestamp does not fit the platform's signed
  64-bit `time_t`. -/
  | errOverflow
deriving DecidableEq

/-- Standard civil-from-days algorithm over floor division; the year is
kept as an `Int` so that far-past dates classify correctly below. -/
def civilFromDays (z0 : Int) : Int × Nat × Nat :=
  let z := z0 + 719468
  let era := Int.ediv z 146097
  let doe := (z - era * 146097).toNat
  let yoe := (doe - doe / 1460 + doe / 36524 - doe / 146096) / 365
  let doy := doe - (365 * yoe + yoe / 4 - yoe / 100)
  let mp := (5 * doy + 2) / 153
  let d := doy - (153 * mp + 2) / 5 + 1
  let m := if mp < 10 then mp + 3 else mp - 9
  let y := era * 400 + (yoe : Int) + (if m ≤ 2 then 1 else 0)
  (y, m, d)

/-- `datetime.fromtimestamp`, modelled at UTC (the code uses the local
zone; the claims never depend on the zone offset), on a 64-bit platform:
a timestamp outside signed 64-bit `time_t` raises `OverflowError`; one
whose civil year makes `tm_year = year - 1900` overflow a C `int` makes
`localtime` fail with `OSError`; a representable date outside years
1..9999 raises `ValueError` from the `datetime` constructor. -/
def fromtimestampUTC (t : Int) : DtResult :=
  if t < -(2 ^ 63) ∨ 2 ^ 63 - 1 < t then .errOverflow
  else
    let c := civilFromDays (Int.ediv t 86400)
    if (2 ^ 31 - 1 : Int) < c.1 - 1900 ∨ c.1 - 1900 < -(2 ^ 31) then
      .errOS
    else if 1 ≤ c.1 ∧ c.1 ≤ 9999 then .ok c.1.toNat c.2.1 c.2.2
    else .errValue

def natOfDigits (cs : List Char) : Nat :=
  cs.foldl (fun acc c => acc * 10 + digitVal c) 0

/-- `float(s)` followed by flooring to whole seconds (the sub-second part
of a timestamp never moves the rendered civil date at UTC except across
a negative boundary, which the floor handles).  Python's exotic float
syntaxes (exponents, `inf`, `nan`, underscores) are not modelled; none are
produced by the record sources. -/
def pyParseFloatFloor (s : String) : Option Int :=
  let cs := pyStripChars s.data
  let signRest : Bool × List Char :=
    match cs with
    | '-' :: r => (true, r)
    | '+' :: r => (false, r)
    | r => (false, r)
  let neg := signRest.1
  let body := signRest.2
  let intDigits := body.takeWhile Char.isDigit
  let rest := body.dropWhile Char.isDigit
  match rest with
  | [] =>
    if intDigits.isEmpty then none
    else some (if neg then -(natOfDigits intDigits : Int) else natOfDigits intDigits)
  | '.' :: frac =>
    if frac.all Char.isDigit ∧ (¬intDigits.isEmpty ∨ ¬frac.isEmpty) then
      let iv : Int := natOfDigits intDigits
      if neg then
        some (if frac.any (fun c => c ≠ '0') then -iv - 1 else -iv)
      else some iv
    else none
  | _ => none

/-- `DataTransformer._normalize_date`.  The outer `Option` is the
exception layer (`none` = an uncaught exception propagates), the inner one
is Python `None`.  The format-list walk and `float()` raise only
`ValueError`, always caught; `fromtimestamp` failures are caught per call
site: the numeric branch catches `(ValueError, OSError)` — so
`OverflowError` escapes — while the string branch catches
`(ValueError, TypeError)` — so both `OSError` and `OverflowError` escape.
Python `bool` is a subclass of `int`, so a boolean input takes the
numeric-timestamp branch. -/
def normalizeDate (v : Value) : Option (Option String) :=
  match v with
  | .null => some none
  | .str s =>
    match tryFormats s.data with
    | some (y, m, d) => some (some (renderDate y m d))
    | none =>
      match pyParseFloatFloor s with
      | some t =>
        match fromtimestampUTC t with
        | .ok y m d => some (some (renderDate y m d))
        | .errValue => some none
        | .errOS => none
        | .errOverflow => none
      | none => some none
  | .int n =>
    match fromtimestampUTC n with
    | .ok y m d => some (some (renderDate y m d))
    | .errValue => some none
    | .errOS => some none
    | .errOverflow => none
  | .bool b =>
    match fromtimestampUTC (if b then 1 else 0) with
    | .ok y m d => some (some (renderDate y m d))
    | .errValue => some none
    | .errOS => some none
    | .errOverflow => none
  | .dtime y mo d _ _ _ => some (some (renderDate y mo d))
  | .list _ => some none
  | .obj _ => some none

/-- `_normalize_date` as a `Value`-producing step (`None` ↦ `null`; an
uncaught exception stays `none` and propagates to the caller). -/
def normalizeDateV (v : Value) : Option Value :=
  match normalizeDate v with
  | none => none
  | some none => some .null
  | some (some s) => some (.str s)

/-! ### `DataTransformer` field extraction -/

/-- `str.split(sep)` for a one-character separator (used with `"."` and
`";"`). -/
def splitOnCharAux (c : Char) : List Char → List Char → List (List Char)
  | [], acc => [acc.reverse]
  | x :: xs, acc =>
    if x = c then acc.reverse :: splitOnCharAux c xs []
    else splitOnCharAux c xs (x :: acc)

def pySplitChar (c : Char) (s : String) : List String :=
  (splitOnCharAux c s.data []).map String.mk

/-- Dotted-key descent inside `_extract_field`: walk nested mappings,
yielding `None` as soon as a segment is missing or the value is not a
mapping. -/
def descendPath : Value → List String → Value
  | v, [] => v
  | .obj fs, k :: ks =>
    match getv fs k with
    | some v' => descendPath v' ks
    | none => .null
  | _, _ :: _ => .null

/-- `DataTransformer._extract_field` (with its default `None`): first
candidate key whose value is non-`None` and non-`""` wins; dotted keys
descend and only require non-`None`. -/
def extractField (record : Obj) : List String → Value
  | [] => .null
  | k :: rest =>
    if k.data.contains '.' then
      let v := descendPath (.obj record) (pySplitChar '.' k)
      if v ≠ .null then v else extractField record rest
    else
      match getv record k with
      | some v => if v ≠ .null ∧ v ≠ .str "" then v else extractField record rest
      | none => extractField record rest

/-- `DataTransformer._extract_field_multisource` (default `None`):
non-mapping sources are skipped; the first source yielding a non-`None`,
non-`""` value wins. -/
def extractFieldMultisource : List Value → List String → Value
  | [], _ => .null
  | s :: rest, keys =>
    match s with
    | .obj fs =>
      let v := extractField fs keys
      if v ≠ .null ∧ v ≠ .str "" then v else extractFieldMultisource rest keys
    | _ => extractFieldMultisource rest keys

/-- The source-precedence list built at the top of `transform_trademark`
(and rebuilt inside `_extract_classes` / `_extract_owner`):
`raw_data = record.get("raw_data", {}) or {}` and
`excel_data = raw_data.get("_raw_excel_data", {}) or {}`.
A truthy non-mapping `raw_data` makes `.get` raise `AttributeError`
(`none`). -/
def sourceViews (record : Obj) : Option (List Value) :=
  match orV (getD record "raw_data") (.obj []) with
  | .obj rfs =>
    some [.obj record, .obj rfs, orV (getD rfs "_raw_excel_data") (.obj [])]
  | _ => none

/-- Inner loop of the class/owner candidate search: the first *present*
field of one source, even if its value is falsy. -/
def firstPresent (fs : Obj) : List String → Option Value
  | [] => none
  | f :: rest =>
    match getv fs f with
    | some v => some v
    | none => firstPresent fs rest

/-- Outer loop of the class/owner candidate search: per source take the
first present field; keep searching while the candidate is falsy (the
code's trailing `if <candidate>: break`). -/
def firstTruthyCandidate : List Value → List String → Option Value
  | [], _ => none
  | s :: rest, fields =>
    match s with
    | .obj fs =>
      match firstPresent fs fields with
      | some v => if v.truthy then some v else firstTruthyCandidate rest fields
      | none => firstTruthyCandidate rest fields
    | _ => firstTruthyCandidate rest fields

/-- One attempt of `re.findall(r'[Cc]lass\s+(\d+)', ·)` at the head of the
input: `C` or `c`, then exactly `lass`, one-or-more whitespace, one-or-more
digits (both greedy).  Returns the captured digits and the rest. -/
def tryClassMatch (cs : List Char) : Option (List Char × List Char) :=
  match cs with
  | c0 :: 'l' :: 'a' :: 's' :: 's' :: rest =>
    if c0 = 'C' ∨ c0 = 'c' then
      let afterWs := rest.dropWhile isPySpace
      let digits := afterWs.takeWhile Char.isDigit
      if ¬(rest.takeWhile isPySpace).isEmpty ∧ ¬digits.isEmpty then
        some (digits, afterWs.drop digits.length)
      else none
    else none
  | _ => none

/-- Left-to-right non-overlapping scan of `re.findall`, fuelled by the
input length (every match consumes at least one character). -/
def scanClassMatches : Nat → List Char → List String
  | 0, _ => []
  | _, [] => []
  | n + 1, c :: cs =>
    match tryClassMatch (c :: cs) with
    | some (digits, rest) => String.mk digits :: scanClassMatches n rest
    | none => scanClassMatches n cs

def findClassMatches (s : String) : List String :=
  scanClassMatches s.data.length s.data

def classFieldNames : List String :=
  ["classes", "internationalClasses", "classCodes", "goodsServicesClasses",
   "trademarkClasses", "i_p_c", "I P C", "ipc"]

def classEntryOfDict (fs : Obj) : Value :=
  .obj [("class_number",
          orV (orV (getD fs "classNumber") (getD fs "class_number")) (getD fs "code")),
        ("description", orV (getD fs "description") (getD fs "classDescription"))]

/-- The per-shape processing of a truthy class candidate inside
`_extract_classes`.  `bool` takes the `isinstance(cls, (int, str))` branch
because Python's `bool` is a subclass of `int`. -/
def classesFromIpc : Value → List Value
  | .list xs =>
    xs.filterMap fun cls =>
      match cls with
      | .obj fs => some (classEntryOfDict fs)
      | .int n => some (.obj [("class_number", .str (toString n)), ("description", .null)])
      | .bool b => some (.obj [("class_number", .str (pyStr (.bool b))), ("description", .null)])
      | .str s => some (.obj [("class_number", .str s), ("description", .null)])
      | _ => none
  | .obj fs =>
    [.obj [("class_number", orV (getD fs "classNumber") (getD fs "class_number")),
           ("description", getD fs "description")]]
  | .str s =>
    (pySplitChar ';' s).filterMap fun code =>
      let t := pyStrip code
      if t ≠ "" then
        some (.obj [("class_number", .str t), ("description", .null)])
      else none
  | _ => []

/-- `DataTransformer._extract_classes`. -/
def extractClasses (record : Obj) : Option (List Value) := do
  let sources ← sourceViews record
  let fromIpc :=
    match firstTruthyCandidate sources classFieldNames with
    | some ipc => classesFromIpc ipc
    | none => []
  if fromIpc.isEmpty then
    let gs := extractFieldMultisource sources ["goodsServices", "goods_services", "description"]
    if gs.truthy then
      pure ((findClassMatches (pyStr gs)).map fun num =>
        .obj [("class_number", .str num), ("description", .null)])
    else pure []
  else pure fromIpc

/-- `DataTransformer._extract_owner`. -/
def extractOwner (record : Obj) : Option Value := do
  let sources ← sourceViews record
  let base : Value × Value × Value × Value × Value × Value :=
    match firstTruthyCandidate sources
        ["owner", "applicant", "assignee", "ownerName", "applicantName"] with
    | some (.obj fs) =>
      (orV (orV (getD fs "name") (getD fs "ownerName")) (getD fs "applicantName"),
       (firstPresent fs ["address", "street", "streetAddress"]).getD .null,
       getD fs "city",
       orV (getD fs "state") (getD fs "stateProvince"),
       orV (getD fs "country") (getD fs "countryCode"),
       orV (orV (getD fs "postalCode") (getD fs "postal_code")) (getD fs "zip"))
    | some (.str s) => (.str s, .null, .null, .null, .null, .null)
    | _ => (.null, .null, .null, .null, .null, .null)
  let (name, address, city, state, country, postal) := base
  let country :=
    if country.truthy then country
    else extractFieldMultisource sources ["country", "Country"]
  let name := if name.truthy then normalizeTextV name else name
  pure (.obj [("name", name), ("address", address), ("city", city),
              ("state", state), ("country", country), ("postal_code", postal)])

/-- `DataTransformer._extract_representative` — reads only the top-level
record, and returns `None` unless some sub-field is truthy
(`rep if any(rep.values()) else None`). -/
def repDefault : Obj :=
  [("name", .null), ("firm", .null), ("address", .null),
   ("phone", .null), ("email", .null)]

/-- The `rep` dict as populated at the end of the `if rep_data and
isinstance(rep_data, dict)` body (unchanged from the all-null default
otherwise). -/
def repEntity (record : Obj) : Obj :=
  match firstPresent record
      ["representative", "attorney", "correspondent", "lawyer", "representativeName"] with
  | some (.obj fs) =>
    if (Value.obj fs).truthy then
      [("name", orV (getD fs "name") (getD fs "attorneyName")),
       ("firm", orV (getD fs "firm") (getD fs "lawFirm")),
       ("address", getD fs "address"),
       ("phone", orV (getD fs "phone") (getD fs "telephone")),
       ("email", getD fs "email")]
    else repDefault
  | _ => repDefault

def extractRepresentative (record : Obj) : Value :=
  let rep : Obj := repEntity record
  if rep.any (fun p => p.2.truthy) then .obj rep else .null

/-- The per-element loop of `_extract_events` (non-mapping elements are
skipped; a date normalization that raises propagates). -/
def extractEventObjs : List Value → Option (List Value)
  | [] => some []
  | ev :: rest =>
    match ev with
    | .obj fs => do
      let d ← normalizeDateV (orV (getD fs "date") (getD fs "eventDate"))
      let rest' ← extractEventObjs rest
      pure (.obj
        [("date", d),
         ("type", orV (orV (getD fs "type") (getD fs "eventType")) (getD fs "code")),
         ("description", orV (getD fs "description") (getD fs "eventDescription")),
         ("code", orV (getD fs "code") (getD fs "eventCode"))] :: rest')
    | _ => extractEventObjs rest

/-- `DataTransformer._extract_events` — only the first present event field
is consulted. -/
def extractEvents (record : Obj) : Option (List Value) :=
  match firstPresent record
      ["events", "history", "prosecutionHistory", "statusHistory", "eventHistory"] with
  | some (.list xs) => extractEventObjs xs
  | _ => some []

/-- `DataTransformer.transform_trademark` (the `Option` binds follow the
dict literal's evaluation order; any uncaught exception from a field
expression propagates out of the whole call). -/
def transformTrademark (record : Obj) : Option Obj := do
  let sources ← sourceViews record
  let regDate ← normalizeDateV (extractFieldMultisource sources
    ["registrationDate", "registration_date", "regDate", "registeredDate"])
  let expDate ← normalizeDateV (extractFieldMultisource sources
    ["expiryDate", "expiry_date", "expirationDate", "expDate"])
  let classes ← extractClasses record
  let owner ← extractOwner record
  let events ← extractEvents record
  let filDate ← normalizeDateV (extractFieldMultisource sources
    ["filingDate", "filing_date", "applicationDate", "appDate",
     "application_date", "Application Date"])
  let pubDate ← normalizeDateV (extractFieldMultisource sources
    ["publishedDate", "publicationDate", "pubDate"])
  pure
    [("registration_number", extractFieldMultisource sources
        ["registrationNumber", "regNumber", "registration_number", "regNum",
         "application_number", "Application Number"]),
     ("serial_number", extractFieldMultisource sources
        ["serialNumber", "serial_number", "serialNum", "applicationNumber",
         "application_id", "Application Id"]),
     ("registration_date", regDate),
     ("expiry_date", expDate),
     ("status", extractFieldMultisource sources
        ["status", "markStatus", "currentStatus", "statusCode"]),
     ("mark_text", extractFieldMultisource sources
        ["markText", "mark_text", "wordMark", "markDescription", "title", "Title"]),
     ("mark_drawing_code", extractFieldMultisource sources
        ["markDrawingCode", "mark_drawing_code", "drawingCode"]),
     ("classes", .list classes),
     ("owner", owner),
     ("representative", extractRepresentative record),
     ("events", .list events),
     ("filing_date", filDate),
     ("published_date", pubDate),
     ("goods_services", extractFieldMultisource sources
        ["goodsServices", "goods_services", "description", "goodsAndServices"]),
     ("raw_data", .obj record)]

/-! ### `DataCleaner` -/

/-- The full-remainder matches of the alternation
`Inc\.?|LLC|L\.L\.C\.?|Corp\.?|Corporation|Ltd\.?|Limited` under
`re.IGNORECASE` (the `$` anchor forces the alternative to cover the whole
remainder). -/
def legalSuffixSet : List (List Char) :=
  ["inc".data, "inc.".data, "llc".data, "l.l.c".data, "l.l.c.".data,
   "corp".data, "corp.".data, "corporation".data, "ltd".data, "ltd.".data,
   "limited".data]

def isLegalSuffix (cs : List Char) : Bool :=
  legalSuffixSet.any (fun s => cs.map pyLowerChar = s)

/-- Whether `\s+(<alternation>)$` matches at the start of `cs` (no
alternative contains whitespace, so the whitespace run is forced to be
maximal). -/
def wsThenSuffix (cs : List Char) : Bool :=
  !(cs.takeWhile isPySpace).isEmpty && isLegalSuffix (cs.dropWhile isPySpace)

/-- `re.sub` deletes from the leftmost position where the anchored pattern
matches; at most one match exists because the match runs to the end. -/
def stripAux : List Char → List Char
  | [] => []
  | c :: cs => if wsThenSuffix (c :: cs) then [] else c :: stripAux cs

/-- The owner-name suffix strip of `DataCleaner._clean_owner` (line 41):
`re.sub(r'\s+(Inc\.?|LLC|L\.L\.C\.?|Corp\.?|Corporation|Ltd\.?|Limited)$',
'', name, flags=re.IGNORECASE)`. -/
def stripLegalSuffix (s : String) : String := String.mk (stripAux s.data)

/-- One `if field in d and d[field]: d[field] = _normalize_text(d[field])`
step (total: `_normalize_text` passes non-strings through). -/
def cleanTextField (fs : Obj) (k : String) : Obj :=
  match getv fs k with
  | some v => if v.truthy then setv fs k (normalizeTextV v) else fs
  | none => fs

/-- A field cleaned by `.strip().upper()` — raises on truthy non-strings. -/
def cleanUpperField (fs : Obj) (k : String) : Option Obj :=
  match getv fs k with
  | some v =>
    if v.truthy then
      match v with
      | .str s => some (setv fs k (.str (pyUpper (pyStrip s))))
      | _ => none
    else some fs
  | none => some fs

/-- The owner-name step: `_normalize_text` then the suffix-strip `re.sub`
(which raises `TypeError` on truthy non-string input). -/
def cleanNameField (fs : Obj) : Option Obj :=
  match getv fs "name" with
  | some v =>
    if v.truthy then
      match v with
      | .str s => some (setv fs "name" (.str (stripLegalSuffix (normText s))))
      | _ => none
    else some fs
  | none => some fs

/-- Python `"k" in <list>` membership test, used when a cleaning helper is
handed a list instead of a dict. -/
def listHasStr (xs : List Value) (k : String) : Bool :=
  xs.any fun v => decide (v = .str k)

/-- `DataCleaner._clean_owner`.  Falsy input is returned as is; a truthy
non-dict raises: strings/numbers at `.copy()` (`AttributeError`), a list at
the first `cleaned_owner[field]` subscript whose key it contains
(`TypeError`) — a list containing none of the keys passes through. -/
def cleanOwner (owner : Value) : Option Value :=
  if ¬owner.truthy then some owner
  else
    match owner with
    | .obj fs => do
      let fs ← cleanNameField fs
      let fs := cleanTextField fs "address"
      let fs := cleanTextField fs "city"
      let fs ← cleanUpperField fs "state"
      let fs ← cleanUpperField fs "country"
      let fs ← cleanUpperField fs "postal_code"
      pure (.obj fs)
    | .list xs =>
      if ["name", "address", "city", "state", "country", "postal_code"].any
          (listHasStr xs) then none
      else some (.list xs)
    | _ => none

/-- The representative phone step: `re.sub(r'[^\d+]', '', phone)` — keeps
every digit and every `+`, raises on truthy non-strings. -/
def cleanPhoneField (fs : Obj) : Option Obj :=
  match getv fs "phone" with
  | some v =>
    if v.truthy then
      match v with
      | .str s =>
        some (setv fs "phone" (.str (String.mk
          (s.data.filter fun c => c.isDigit || c = '+'))))
      | _ => none
    else some fs
  | none => some fs

/-- The representative email step: `.strip().lower()`. -/
def cleanEmailField (fs : Obj) : Option Obj :=
  match getv fs "email" with
  | some v =>
    if v.truthy then
      match v with
      | .str s => some (setv fs "email" (.str (pyLower (pyStrip s))))
      | _ => none
    else some fs
  | none => some fs

/-- `DataCleaner._clean_representative`. -/
def cleanRepresentative (rep : Value) : Option Value :=
  if ¬rep.truthy then some rep
  else
    match rep with
    | .obj fs => do
      let fs := cleanTextField fs "name"
      let fs := cleanTextField fs "firm"
      let fs := cleanTextField fs "address"
      let fs ← cleanPhoneField fs
      let fs ← cleanEmailField fs
      pure (.obj fs)
    | .list xs =>
      if ["name", "firm", "address", "phone", "email"].any (listHasStr xs) then none
      else some (.list xs)
    | _ => none

def requiredOwnerStructure : Obj :=
  [("name", .null), ("address", .null), ("city", .null), ("state", .null),
   ("country", .null), ("postal_code", .null)]

/-- The `required_structure` literal of
`DataCleaner._ensure_required_fields`, in source order. -/
def requiredStructure : Obj :=
  [("registration_number", .null), ("serial_number", .null),
   ("registration_date", .null), ("expiry_date", .null), ("status", .null),
   ("mark_text", .null), ("mark_drawing_code", .null),
   ("classes", .list []), ("owner", .obj requiredOwnerStructure),
   ("representative", .null), ("events", .list []), ("filing_date", .null),
   ("published_date", .null), ("goods_services", .null)]

/-- Lines 118–121 of `_ensure_required_fields`: the owner deep-merge.
`{**required_owner, **record["owner"]}` raises `TypeError` when the truthy
owner is not a mapping. -/
def ensureOwnerField (record cleaned : Obj) : Option Obj :=
  match getv record "owner" with
  | some ov =>
    if ov.truthy then
      match ov with
      | .obj ofs =>
        some (setv cleaned "owner" (.obj (updatev requiredOwnerStructure ofs)))
      | _ => none
    else some (setv cleaned "owner" (.obj requiredOwnerStructure))
  | none => some (setv cleaned "owner" (.obj requiredOwnerStructure))

/-- Lines 123–127: coerce `classes`/`events` to `[]` when absent or not a
list. -/
def coerceListField (cleaned : Obj) (k : String) : Obj :=
  match getv cleaned k with
  | some (.list _) => cleaned
  | _ => setv cleaned k (.list [])

/-- `DataCleaner._ensure_required_fields`. -/
def ensureRequiredFields (record : Obj) : Option Obj := do
  let cleaned ← ensureOwnerField record (updatev requiredStructure record)
  pure (coerceListField (coerceListField cleaned "classes") "events")

/-- Lines 17–18 of `clean_trademark`: clean a present truthy owner. -/
def cleanOwnerStep (cleaned : Obj) : Option Obj :=
  match getv cleaned "owner" with
  | some ov =>
    if ov.truthy then do
      let ov' ← cleanOwner ov
      pure (setv cleaned "owner" ov')
    else pure cleaned
  | none => pure cleaned

/-- Lines 20–21: clean a present truthy representative. -/
def cleanRepStep (cleaned : Obj) : Option Obj :=
  match getv cleaned "representative" with
  | some rv =>
    if rv.truthy then do
      let rv' ← cleanRepresentative rv
      pure (setv cleaned "representative" rv')
    else pure cleaned
  | none => pure cleaned

/-- `DataCleaner.clean_trademark`. -/
def cleanTrademark (record : Obj) : Option Obj := do
  let cleaned ← cleanOwnerStep record
  let cleaned ← cleanRepStep cleaned
  ensureRequiredFields (cleanTextField (cleanTextField
    (cleanTextField cleaned "mark_text") "status") "goods_services")

/-! ### `DataCleaner.flatten_record` -/

/-- `[str(c.get("class_number", "")) for c in classes if
c.get("class_number")]` — the filter is truthiness of the `class_number`
value; a non-mapping element raises `AttributeError` at `c.get`. -/
def classNumStrs : List Value → Option (List String)
  | [] => some []
  | c :: cs =>
    match c with
    | .obj fs => do
      let rest ← classNumStrs cs
      if (getD fs "class_number").truthy then
        pure (pyStr (getD fs "class_number") :: rest)
      else pure rest
    | _ => none

/-- Python `>` restricted to the value shapes a `date` field can carry
here: numbers (with `bool` as `int`), strings (code-point lexicographic),
datetimes.  Mixed or container comparisons raise (`none`); Python's
element-wise list comparison is not modelled (a list-valued event date
never arises and no claim touches it). -/
def pyGt (a b : Value) : Option Bool :=
  match a, b with
  | .int x, .int y => some (decide (y < x))
  | .int x, .bool y => some (decide (((if y then 1 else 0) : Int) < x))
  | .bool x, .int y => some (decide (y < ((if x then 1 else 0) : Int)))
  | .bool x, .bool y => some (decide (((if y then 1 else 0) : Int) < (if x then 1 else 0)))
  | .str x, .str y => some (decide (y < x))
  | .dtime a1 b1 c1 d1 e1 f1, .dtime a2 b2 c2 d2 e2 f2 =>
      some (decide
        (a2 < a1 ∨ (a2 = a1 ∧ (b2 < b1 ∨ (b2 = b1 ∧ (c2 < c1 ∨ (c2 = c1 ∧
          (d2 < d1 ∨ (d2 = d1 ∧ (e2 < e1 ∨ (e2 = e1 ∧ f2 < f1)))))))))))
  | _, _ => none

/-- `[e for e in events if e.get("date")]`. -/
def filterDated : List Value → Option (List Obj)
  | [] => some []
  | e :: es =>
    match e with
    | .obj fs => do
      let rest ← filterDated es
      if (getD fs "date").truthy then pure (fs :: rest) else pure rest
    | _ => none

/-- `max(..., key=lambda x: x.get("date", ""), default=None)`: keep the
current element unless the next key is strictly greater (so the first
maximum wins, as in CPython). -/
def maxFoldByDate (cur : Obj) : List Obj → Option Obj
  | [] => some cur
  | x :: xs => do
    let gt ← pyGt (getD x "date") (getD cur "date")
    maxFoldByDate (if gt then x else cur) xs

/-- Lines 145–152 of `flatten_record`: hoist the owner sub-fields. -/
def flattenOwnerStep (f : Obj) : Obj :=
  match getv f "owner" with
  | some (.obj ofs) =>
    let f := popv f "owner"
    let f := setv f "owner_name" (getD ofs "name")
    let f := setv f "owner_address" (getD ofs "address")
    let f := setv f "owner_city" (getD ofs "city")
    let f := setv f "owner_state" (getD ofs "state")
    let f := setv f "owner_country" (getD ofs "country")
    setv f "owner_postal_code" (getD ofs "postal_code")
  | _ => f

/-- Lines 155–161: hoist the representative sub-fields. -/
def flattenRepStep (f : Obj) : Obj :=
  match getv f "representative" with
  | some (.obj rfs) =>
    let f := popv f "representative"
    let f := setv f "rep_name" (getD rfs "name")
    let f := setv f "rep_firm" (getD rfs "firm")
    let f := setv f "rep_address" (getD rfs "address")
    let f := setv f "rep_phone" (getD rfs "phone")
    setv f "rep_email" (getD rfs "email")
  | _ => f

/-- Lines 164–171: collapse the classes list to `class_numbers` and
`class_count`. -/
def flattenClassesStep (f : Obj) : Option Obj :=
  match getv f "classes" with
  | some (.list cs) => do
    let f := popv f "classes"
    let nums ← classNumStrs cs
    let f := setv f "class_numbers"
      (if nums.isEmpty then .null else .str (", ".intercalate nums))
    pure (setv f "class_count" (.int cs.length))
  | _ => pure (setv (setv f "class_numbers" .null) "class_count" (.int 0))

/-- The `(latest_event_date, latest_event_type)` pair computed in lines
177–185 (`(None, None)` when the list is empty or no element has a truthy
date). -/
def latestPair (es : List Value) : Option (Value × Value) :=
  if es.isEmpty then some (.null, .null)
  else do
    let dated ← filterDated es
    match dated with
    | [] => some (.null, .null)
    | x :: xs => do
      let latest ← maxFoldByDate x xs
      some (getD latest "date", getD latest "type")

/-- Lines 174–189: collapse the events list to a count and the latest
event. -/
def flattenEventsStep (f : Obj) : Option Obj :=
  match getv f "events" with
  | some (.list es) => do
    let lat ← latestPair es
    pure (setv (setv (setv (popv f "events") "event_count" (.int es.length))
      "latest_event_date" lat.1) "latest_event_type" lat.2)
  | _ =>
    pure (setv (setv (setv f "event_count" (.int 0))
      "latest_event_date" .null) "latest_event_type" .null)

/-- `DataCleaner.flatten_record`. -/
def flattenRecord (record : Obj) : Option Obj := do
  let f ← flattenClassesStep (flattenRepStep (flattenOwnerStep record))
  let f ← flattenEventsStep f
  pure (if hasKey f "raw_data" then popv f "raw_data" else f)

/-! ### Association-list lemmas -/

theorem getv_setv_self (o : Obj) (k : String) (v : Value) :
    getv (setv o k v) k = some v := by
  induction o with
  | nil => simp [setv, getv]
  | cons p t ih =>
    obtain ⟨k', v'⟩ := p
    by_cases h : k' = k
    · simp [setv, getv, h]
    · simp [setv, getv, h, ih]

theorem getv_setv_ne (o : Obj) (k k' : String) (v : Value) (h : k' ≠ k) :
    getv (setv o k v) k' = getv o k' := by
  have hks : ¬(k = k') := fun hh => h hh.symm
  induction o with
  | nil => simp [setv, getv, hks]
  | cons p t ih =>
    obtain ⟨k₀, v₀⟩ := p
    by_cases h0 : k₀ = k
    · subst h0
      simp [setv, getv, hks]
    · by_cases h1 : k₀ = k'
      · simp [setv, getv, h0, h1, h]
      · simp [setv, getv, h0, h1, ih]

theorem setv_getv_eq (o : Obj) (k : String) (v : Value)
    (h : getv o k = some v) : setv o k v = o := by
  induction o with
  | nil => simp [getv] at h
  | cons p t ih =>
    obtain ⟨k₀, v₀⟩ := p
    by_cases h0 : k₀ = k
    · subst h0
      simp [getv] at h
      simp [setv, h]
    · simp [getv, h0] at h
      simp [setv, h0, ih h]

theorem getv_popv_ne (o : Obj) (k k' : String) (h : k' ≠ k) :
    getv (popv o k) k' = getv o k' := by
  have hks : ¬(k = k') := fun hh => h hh.symm
  induction o with
  | nil => simp [popv]
  | cons p t ih =>
    obtain ⟨k₀, v₀⟩ := p
    by_cases h0 : k₀ = k
    · subst h0
      simp [popv, getv, hks]
    · by_cases h1 : k₀ = k'
      · simp [popv, getv, h0, h1, h]
      · simp [popv, getv, h0, h1, ih]

theorem hasKey_setv (o : Obj) (k k' : String) (v : Value) (h : hasKey o k') :
    hasKey (setv o k v) k' := by
  by_cases he : k' = k
  · subst he
    simp [hasKey, getv_setv_self]
  · simpa [hasKey, getv_setv_ne o k k' v he] using h

theorem getv_updatev_of_none (e : Obj) (o : Obj) (k : String)
    (h : getv e k = none) : getv (updatev o e) k = getv o k := by
  induction e generalizing o with
  | nil => simp [updatev]
  | cons p t ih =>
    obtain ⟨k₀, v₀⟩ := p
    by_cases h0 : k₀ = k
    · simp [getv, h0] at h
    · simp only [getv, h0, if_neg h0] at h
      show getv (updatev (setv o k₀ v₀) t) k = _
      rw [ih _ h, getv_setv_ne _ _ _ _ (fun hh => h0 hh.symm)]

/-- Keys of a dict are unique; every dict the Python code builds satisfies
this. -/
def NodupKeys (o : Obj) : Prop := (o.map Prod.fst).Nodup

theorem getv_eq_none_of_not_mem (e : Obj) (k : String)
    (h : k ∉ e.map Prod.fst) : getv e k = none := by
  induction e with
  | nil => simp [getv]
  | cons p t ih =>
    obtain ⟨k₀, v₀⟩ := p
    simp only [List.map_cons, List.mem_cons] at h
    push_neg at h
    have h0 : ¬(k₀ = k) := fun hh => h.1 hh.symm
    simp [getv, h0, ih h.2]

theorem getv_updatev_of_some (e : Obj) (o : Obj) (k : String) (v : Value)
    (hd : NodupKeys e) (h : getv e k = some v) :
    getv (updatev o e) k = some v := by
  induction e generalizing o with
  | nil => simp [getv] at h
  | cons p t ih =>
    obtain ⟨k₀, v₀⟩ := p
    have hd' : k₀ ∉ t.map Prod.fst ∧ NodupKeys t := by
      simpa [NodupKeys] using hd
    by_cases h0 : k₀ = k
    · subst h0
      have hv : v₀ = v := by simpa [getv] using h
      subst hv
      show getv (updatev (setv o k₀ v₀) t) k₀ = some v₀
      rw [getv_updatev_of_none t _ _ (getv_eq_none_of_not_mem t k₀ hd'.1),
        getv_setv_self]
    · have h' : getv t k = some v := by simpa [getv, h0] using h
      show getv (updatev (setv o k₀ v₀) t) k = some v
      exact ih _ hd'.2 h'

theorem hasKey_updatev_left (e : Obj) (o : Obj) (k : String) (h : hasKey o k) :
    hasKey (updatev o e) k := by
  induction e generalizing o with
  | nil => simpa [updatev] using h
  | cons p t ih => exact ih _ (hasKey_setv _ _ _ _ h)

theorem setv_map_fst_sub (t : Obj) (k : String) (v : Value) {x : String}
    (hx : x ∈ (setv t k v).map Prod.fst) : x ∈ t.map Prod.fst ∨ x = k := by
  induction t with
  | nil => simpa [setv] using hx
  | cons p s ih =>
    obtain ⟨k₀, v₀⟩ := p
    by_cases h0 : k₀ = k
    · simp only [setv, if_pos h0, List.map_cons, List.mem_cons] at hx
      rcases hx with h | h
      · left; simp [h]
      · left; simp [h]
    · simp only [setv, if_neg h0, List.map_cons, List.mem_cons] at hx
      rcases hx with h | h
      · left; simp [h]
      · rcases ih h with h' | h'
        · left; simp [h']
        · right; exact h'

/-! ### Normalized-string theory

Facts about `normText`, `pyStrip`, `pyUpper`, `pyLower` and
`stripLegalSuffix` needed for the idempotence claim: one pass of
`_normalize_text` yields a string that is a fixed point of a second pass,
and suffix-stripping preserves that property. -/

theorem charToNatOfNat (n : Nat) (h : n < 55296) : (Char.ofNat n).toNat = n := by
  unfold Char.ofNat
  split
  · simp [Char.toNat, Char.ofNatAux, UInt32.toNat, BitVec.toNat_ofNatLt]
  · rename_i hv
    exact absurd (Or.inl h) hv

theorem isPySpace_eq_false_of_ge (c : Char) (h : 33 ≤ c.toNat) :
    isPySpace c = false := by
  simp only [isPySpace, Bool.or_eq_false_iff, decide_eq_false_iff_not]
  omega

theorem isPySpace_pyUpperChar (c : Char) :
    isPySpace (pyUpperChar c) = isPySpace c := by
  rw [pyUpperChar]
  split
  · rename_i h
    have ht : (Char.ofNat (c.toNat - 32)).toNat = c.toNat - 32 :=
      charToNatOfNat _ (by omega)
    rw [isPySpace_eq_false_of_ge _ (by rw [ht]; omega),
      isPySpace_eq_false_of_ge c (by omega)]
  · rfl

theorem pyUpperChar_idem (c : Char) :
    pyUpperChar (pyUpperChar c) = pyUpperChar c := by
  by_cases h : 97 ≤ c.toNat ∧ c.toNat ≤ 122
  · have h1 : pyUpperChar c = Char.ofNat (c.toNat - 32) := by
      rw [pyUpperChar, if_pos h]
    have ht : (Char.ofNat (c.toNat - 32)).toNat = c.toNat - 32 :=
      charToNatOfNat _ (by omega)
    rw [h1]
    rw [pyUpperChar, if_neg (by rw [ht]; omega)]
  · have h2 : pyUpperChar c = c := by rw [pyUpperChar, if_neg h]
    rw [h2, h2]

theorem isPySpace_pyLowerChar (c : Char) :
    isPySpace (pyLowerChar c) = isPySpace c := by
  rw [pyLowerChar]
  split
  · rename_i h
    have ht : (Char.ofNat (c.toNat + 32)).toNat = c.toNat + 32 :=
      charToNatOfNat _ (by omega)
    rw [isPySpace_eq_false_of_ge _ (by rw [ht]; omega),
      isPySpace_eq_false_of_ge c (by omega)]
  · rfl

theorem pyLowerChar_idem (c : Char) :
    pyLowerChar (pyLowerChar c) = pyLowerChar c := by
  by_cases h : 65 ≤ c.toNat ∧ c.toNat ≤ 90
  · have h1 : pyLowerChar c = Char.ofNat (c.toNat + 32) := by
      rw [pyLowerChar, if_pos h]
    have ht : (Char.ofNat (c.toNat + 32)).toNat = c.toNat + 32 :=
      charToNatOfNat _ (by omega)
    rw [h1]
    rw [pyLowerChar, if_neg (by rw [ht]; omega)]
  · have h2 : pyLowerChar c = c := by rw [pyLowerChar, if_neg h]
    rw [h2, h2]

theorem dropWhile_head_not {α : Type} (p : α → Bool) :
    ∀ (l : List α) (d : α) (rest : List α),
      l.dropWhile p = d :: rest → p d = false
  | [], d, rest => by simp
  | a :: l, d, rest => by
    intro h
    by_cases hp : p a = true
    · rw [List.dropWhile_cons, if_pos hp] at h
      exact dropWhile_head_not p l d rest h
    · rw [List.dropWhile_cons, if_neg hp] at h
      cases h
      simpa using hp

theorem dropWhile_ws_idem : ∀ cs : List Char,
    (cs.dropWhile isPySpace).dropWhile isPySpace = cs.dropWhile isPySpace
  | [] => rfl
  | c :: cs => by
    by_cases h : isPySpace c = true
    · simp only [List.dropWhile_cons, if_pos h]
      exact dropWhile_ws_idem cs
    · simp [List.dropWhile_cons, h]

theorem dropTrailWS_fix_tail {c : Char} {cs : List Char}
    (h : dropTrailWS (c :: cs) = c :: cs) : dropTrailWS cs = cs := by
  rw [dropTrailWS] at h
  split at h
  · cases h
  · exact (List.cons.injEq .. ▸ h).2

theorem dropTrailWS_idem : ∀ cs : List Char,
    dropTrailWS (dropTrailWS cs) = dropTrailWS cs
  | [] => rfl
  | c :: cs => by
    have ih := dropTrailWS_idem cs
    by_cases h : ((dropTrailWS cs).isEmpty && isPySpace c) = true
    · rw [dropTrailWS, if_pos h]
      rfl
    · rw [dropTrailWS, if_neg h]
      rw [dropTrailWS, ih, if_neg h]

theorem dropWhile_ws_dropTrail (cs : List Char)
    (h : cs.dropWhile isPySpace = cs) :
    (dropTrailWS cs).dropWhile isPySpace = dropTrailWS cs := by
  cases cs with
  | nil => rfl
  | cons c t =>
    have hc : isPySpace c = false := by
      by_cases hp : isPySpace c = true
      · rw [List.dropWhile_cons, if_pos hp] at h
        have := dropWhileLenLe isPySpace t
        rw [h] at this
        simp at this
      · simpa using hp
    rw [dropTrailWS]
    split
    · rfl
    · rw [List.dropWhile_cons, if_neg (by simp [hc])]

theorem dropTrailWS_dropWhile (cs : List Char)
    (h : dropTrailWS cs = cs) :
    dropTrailWS (cs.dropWhile isPySpace) = cs.dropWhile isPySpace := by
  induction cs with
  | nil => rfl
  | cons c t ih =>
    by_cases hp : isPySpace c = true
    · rw [List.dropWhile_cons, if_pos hp]
      exact ih (dropTrailWS_fix_tail h)
    · rw [List.dropWhile_cons, if_neg (by simpa using hp)]
      exact h

theorem pyStripChars_idem (cs : List Char) :
    pyStripChars (pyStripChars cs) = pyStripChars cs := by
  rw [pyStripChars, pyStripChars]
  have h1 : dropTrailWS (cs.dropWhile isPySpace) =
      dropTrailWS (cs.dropWhile isPySpace) := rfl
  rw [dropWhile_ws_dropTrail _ (dropWhile_ws_idem cs), dropTrailWS_idem]

theorem dropWhile_ws_map (f : Char → Char)
    (hf : ∀ c, isPySpace (f c) = isPySpace c) :
    ∀ cs : List Char,
      (cs.map f).dropWhile isPySpace = (cs.dropWhile isPySpace).map f
  | [] => rfl
  | c :: cs => by
    by_cases h : isPySpace c = true
    · rw [List.map_cons, List.dropWhile_cons, if_pos (by rw [hf]; exact h),
        List.dropWhile_cons, if_pos h]
      exact dropWhile_ws_map f hf cs
    · rw [List.map_cons, List.dropWhile_cons,
        if_neg (by rw [hf]; simpa using h),
        List.dropWhile_cons, if_neg (by simpa using h), List.map_cons]

theorem dropTrailWS_map (f : Char → Char)
    (hf : ∀ c, isPySpace (f c) = isPySpace c) :
    ∀ cs : List Char, dropTrailWS (cs.map f) = (dropTrailWS cs).map f
  | [] => rfl
  | c :: cs => by
    have ih := dropTrailWS_map f hf cs
    have hie : ((dropTrailWS cs).map f).isEmpty = (dropTrailWS cs).isEmpty := by
      cases dropTrailWS cs <;> simp
    rw [List.map_cons, dropTrailWS, dropTrailWS, ih, hie, hf]
    by_cases h : ((dropTrailWS cs).isEmpty && isPySpace c) = true
    · rw [if_pos h, if_pos h]
      rfl
    · rw [if_neg h, if_neg h, List.map_cons]

theorem pyStripChars_map (f : Char → Char)
    (hf : ∀ c, isPySpace (f c) = isPySpace c) (cs : List Char) :
    pyStripChars (cs.map f) = (pyStripChars cs).map f := by
  rw [pyStripChars, pyStripChars, dropWhile_ws_map f hf, dropTrailWS_map f hf]

/-- Normalization-state machine: `prev` records whether the previous
character was whitespace; every whitespace character must be a single
`' '` followed by more text, and a trailing whitespace is rejected. -/
def wsOk : Bool → List Char → Bool
  | prev, [] => !prev
  | prev, c :: cs =>
    if isPySpace c then !prev && (c = ' ') && wsOk true cs else wsOk false cs

/-- Fully normalized text: empty, or whitespace-collapsed with no
leading/trailing whitespace. -/
def normB (cs : List Char) : Bool :=
  match cs with
  | [] => true
  | c :: _ => !isPySpace c && wsOk false cs

theorem collapseWS_nil : collapseWS [] = [] := rfl

theorem collapseWSAux_true_eq : ∀ cs : List Char,
    collapseWSAux true cs = collapseWSAux false (cs.dropWhile isPySpace)
  | [] => rfl
  | c :: cs => by
    by_cases hc : isPySpace c = true
    · simp [collapseWSAux, hc, collapseWSAux_true_eq cs, List.dropWhile_cons]
    · simp [collapseWSAux, hc, List.dropWhile_cons]

theorem collapseWS_cons_not_ws {c : Char} (cs : List Char)
    (h : isPySpace c = false) : collapseWS (c :: cs) = c :: collapseWS cs := by
  simp [collapseWS, collapseWSAux, h]

theorem collapseWS_cons_ws {c : Char} (cs : List Char)
    (h : isPySpace c = true) :
    collapseWS (c :: cs) = ' ' :: collapseWS (cs.dropWhile isPySpace) := by
  simp [collapseWS, collapseWSAux, h, collapseWSAux_true_eq]

theorem dropWhile_ws_nil_dropTrail : ∀ cs : List Char,
    cs.dropWhile isPySpace = [] → dropTrailWS cs = []
  | [] => fun _ => rfl
  | c :: cs => fun h => by
    by_cases hc : isPySpace c = true
    · rw [List.dropWhile_cons, if_pos hc] at h
      have ih := dropWhile_ws_nil_dropTrail cs h
      rw [dropTrailWS, ih, if_pos (by simp [hc])]
    · rw [List.dropWhile_cons, if_neg (by simpa using hc)] at h
      cases h

theorem collapse_wsOk : ∀ cs : List Char,
    dropTrailWS cs = cs → wsOk false (collapseWS cs) = true
  | [] => fun _ => rfl
  | c :: cs => fun h => by
    have htail : dropTrailWS cs = cs := dropTrailWS_fix_tail h
    by_cases hc : isPySpace c = true
    · have hcond : ¬(((dropTrailWS cs).isEmpty && isPySpace c) = true) := by
        intro hcond
        rw [dropTrailWS, if_pos hcond] at h
        cases h
      have hne : (dropTrailWS cs).isEmpty = false := by
        by_cases hE : (dropTrailWS cs).isEmpty = true
        · exact absurd (by simp [hE, hc]) hcond
        · simpa using hE
      have hdw : cs.dropWhile isPySpace ≠ [] := by
        intro hnil
        rw [dropWhile_ws_nil_dropTrail cs hnil] at hne
        simp at hne
      rcases hsplit : cs.dropWhile isPySpace with _ | ⟨d, rest⟩
      · exact absurd hsplit hdw
      · have hd : isPySpace d = false := dropWhile_head_not _ cs d rest hsplit
        have hTd : dropTrailWS (d :: rest) = d :: rest := by
          rw [← hsplit]
          exact dropTrailWS_dropWhile cs htail
        have hTrest : dropTrailWS rest = rest := dropTrailWS_fix_tail hTd
        have hrec := collapse_wsOk rest hTrest
        rw [collapseWS_cons_ws cs hc, hsplit, collapseWS_cons_not_ws rest hd]
        simp [wsOk, hd, hrec]
    · have hrec := collapse_wsOk cs htail
      rw [collapseWS_cons_not_ws cs (by simpa using hc)]
      simp [wsOk, hc, hrec]
termination_by cs => cs.length
decreasing_by
  · have h1 : (d :: rest).length ≤ cs.length := by
      rw [← hsplit]
      exact dropWhileLenLe _ _
    simp only [List.length_cons] at h1 ⊢
    omega
  · simp

theorem wsOk_dropTrail_id : ∀ (prev : Bool) (cs : List Char),
    wsOk prev cs = true → dropTrailWS cs = cs
  | _, [] => fun _ => rfl
  | prev, c :: cs => fun h => by
    by_cases hc : isPySpace c = true
    · rw [wsOk, if_pos hc] at h
      simp only [Bool.and_eq_true] at h
      have ih := wsOk_dropTrail_id true cs h.2
      have hne : cs ≠ [] := by
        intro hnil
        rw [hnil] at h
        simp [wsOk] at h
      rw [dropTrailWS, ih, if_neg (by simp [List.isEmpty_eq_true, hne])]
    · rw [wsOk, if_neg hc] at h
      have ih := wsOk_dropTrail_id false cs h
      rw [dropTrailWS, ih, if_neg (by simp [hc])]

theorem wsOk_collapse_id : ∀ (prev : Bool) (cs : List Char),
    wsOk prev cs = true → collapseWS cs = cs
  | _, [] => fun _ => collapseWS_nil
  | prev, c :: cs => fun h => by
    by_cases hc : isPySpace c = true
    · rw [wsOk, if_pos hc] at h
      simp only [Bool.and_eq_true, decide_eq_true_eq] at h
      obtain ⟨⟨hprev, hsp⟩, hws⟩ := h
      rcases cs with _ | ⟨d, rest⟩
      · simp [wsOk] at hws
      · have hd : isPySpace d = false := by
          by_cases hdp : isPySpace d = true
          · rw [wsOk, if_pos hdp] at hws
            simp at hws
          · simpa using hdp
        have ih := wsOk_collapse_id true (d :: rest) hws
        rw [collapseWS_cons_ws (d :: rest) hc, List.dropWhile_cons,
          if_neg (by simp [hd]), ih, hsp]
    · rw [wsOk, if_neg hc] at h
      have ih := wsOk_collapse_id false cs h
      rw [collapseWS_cons_not_ws cs (by simpa using hc), ih]

theorem wsOk_stripAux : ∀ (prev : Bool) (cs : List Char),
    wsOk prev cs = true →
      wsOk prev (stripAux cs) = true ∨ stripAux cs = []
  | prev, [] => fun h => Or.inl h
  | prev, c :: cs => fun h => by
    by_cases hm : wsThenSuffix (c :: cs) = true
    · right
      rw [stripAux, if_pos hm]
    · rw [stripAux, if_neg hm]
      by_cases hc : isPySpace c = true
      · rw [wsOk, if_pos hc] at h
        simp only [Bool.and_eq_true, decide_eq_true_eq] at h
        obtain ⟨⟨hprev, hsp⟩, hws⟩ := h
        rcases cs with _ | ⟨d, rest⟩
        · simp [wsOk] at hws
        · have hd : isPySpace d = false := by
            by_cases hdp : isPySpace d = true
            · rw [wsOk, if_pos hdp] at hws
              simp at hws
            · simpa using hdp
          have hnm : wsThenSuffix (d :: rest) = false := by
            rw [wsThenSuffix, List.takeWhile_cons, if_neg (by simp [hd])]
            simp
          have hne : stripAux (d :: rest) = d :: stripAux rest := by
            rw [stripAux, if_neg (by simp [hnm])]
          rcases wsOk_stripAux true (d :: rest) hws with hl | hr
          · left
            rw [wsOk, if_pos hc]
            simp only [Bool.and_eq_true, decide_eq_true_eq]
            exact ⟨⟨hprev, hsp⟩, hl⟩
          · rw [hne] at hr
            cases hr
      · rw [wsOk, if_neg hc] at h
        left
        rw [wsOk, if_neg hc]
        rcases wsOk_stripAux false cs h with hl | hr
        · exact hl
        · rw [hr]
          rfl

theorem normB_NTC (cs : List Char) :
    normB (collapseWS (pyStripChars cs)) = true := by
  have hT : dropTrailWS (pyStripChars cs) = pyStripChars cs := by
    rw [pyStripChars]
    exact dropTrailWS_idem _
  have hW : wsOk false (collapseWS (pyStripChars cs)) = true :=
    collapse_wsOk _ hT
  have hdwfix : (pyStripChars cs).dropWhile isPySpace = pyStripChars cs := by
    rw [pyStripChars]
    exact dropWhile_ws_dropTrail _ (dropWhile_ws_idem cs)
  rcases hsp : pyStripChars cs with _ | ⟨d, rest⟩
  · rw [collapseWS_nil]
    rfl
  · have hd : isPySpace d = false := by
      rw [hsp] at hdwfix
      by_cases hdp : isPySpace d = true
      · rw [List.dropWhile_cons, if_pos hdp] at hdwfix
        have := dropWhileLenLe isPySpace rest
        rw [hdwfix] at this
        simp at this
      · simpa using hdp
    rw [hsp] at hW
    rw [collapseWS_cons_not_ws rest hd] at hW ⊢
    simp only [normB, hd, Bool.not_false, Bool.true_and]
    exact hW

theorem NTC_of_normB (cs : List Char) (h : normB cs = true) :
    collapseWS (pyStripChars cs) = cs := by
  rcases cs with _ | ⟨c, t⟩
  · show collapseWS [] = []
    exact collapseWS_nil
  · simp only [normB, Bool.and_eq_true, Bool.not_eq_true'] at h
    obtain ⟨hc, hws⟩ := h
    rw [pyStripChars, List.dropWhile_cons, if_neg (by simp [hc]),
      wsOk_dropTrail_id false _ hws, wsOk_collapse_id false _ hws]

theorem normB_stripAux (cs : List Char) (h : normB cs = true) :
    normB (stripAux cs) = true := by
  rcases cs with _ | ⟨c, t⟩
  · exact h
  · simp only [normB, Bool.and_eq_true, Bool.not_eq_true'] at h
    obtain ⟨hc, hws⟩ := h
    by_cases hm : wsThenSuffix (c :: t) = true
    · rw [stripAux, if_pos hm]
      rfl
    · have hst : stripAux (c :: t) = c :: stripAux t := by
        rw [stripAux, if_neg hm]
      rcases wsOk_stripAux false (c :: t) hws with hl | hr
      · rw [hst] at hl ⊢
        simp only [normB, hc, Bool.not_false, Bool.true_and]
        exact hl
      · rw [hst] at hr
        cases hr

/-! String-level corollaries. -/

theorem normText_idem (s : String) : normText (normText s) = normText s := by
  have h : collapseWS (pyStripChars (normText s).data) = (normText s).data :=
    NTC_of_normB _ (normB_NTC s.data)
  show String.mk (collapseWS (pyStripChars (normText s).data)) = normText s
  rw [h]

theorem normText_stripLegalSuffix_normText (s : String) :
    normText (stripLegalSuffix (normText s)) = stripLegalSuffix (normText s) := by
  have hB : normB (stripAux (normText s).data) = true :=
    normB_stripAux _ (normB_NTC s.data)
  have h : collapseWS (pyStripChars (stripLegalSuffix (normText s)).data) =
      (stripLegalSuffix (normText s)).data := NTC_of_normB _ hB
  show String.mk
    (collapseWS (pyStripChars (stripLegalSuffix (normText s)).data)) =
    stripLegalSuffix (normText s)
  rw [h]

theorem pyStrip_idem (s : String) : pyStrip (pyStrip s) = pyStrip s := by
  show String.mk (pyStripChars (pyStrip s).data) = pyStrip s
  show String.mk (pyStripChars (pyStripChars s.data)) = pyStrip s
  rw [pyStripChars_idem]
  rfl

theorem pyStrip_pyUpper_pyStrip (s : String) :
    pyStrip (pyUpper (pyStrip s)) = pyUpper (pyStrip s) := by
  show String.mk (pyStripChars ((pyStripChars s.data).map pyUpperChar)) = _
  rw [pyStripChars_map _ isPySpace_pyUpperChar, pyStripChars_idem]
  rfl

theorem pyUpper_idem (s : String) : pyUpper (pyUpper s) = pyUpper s := by
  show String.mk ((s.data.map pyUpperChar).map pyUpperChar) = _
  have : ∀ cs : List Char,
      (cs.map pyUpperChar).map pyUpperChar = cs.map pyUpperChar := by
    intro cs
    induction cs with
    | nil => rfl
    | cons c t ih => simp [pyUpperChar_idem, ih]
  rw [this]
  rfl

theorem pyStrip_pyLower_pyStrip (s : String) :
    pyStrip (pyLower (pyStrip s)) = pyLower (pyStrip s) := by
  show String.mk (pyStripChars ((pyStripChars s.data).map pyLowerChar)) = _
  rw [pyStripChars_map _ isPySpace_pyLowerChar, pyStripChars_idem]
  rfl

theorem pyLower_idem (s : String) : pyLower (pyLower s) = pyLower s := by
  show String.mk ((s.data.map pyLowerChar).map pyLowerChar) = _
  have : ∀ cs : List Char,
      (cs.map pyLowerChar).map pyLowerChar = cs.map pyLowerChar := by
    intro cs
    induction cs with
    | nil => rfl
    | cons c t ih => simp [pyLowerChar_idem, ih]
  rw [this]
  rfl

theorem charFilter_idem (p : Char → Bool) (l : List Char) :
    (l.filter p).filter p = l.filter p := by
  induction l with
  | nil => rfl
  | cons c t ih =>
    by_cases h : p c = true
    · simp [List.filter_cons, h, ih]
    · simp [List.filter_cons, h, ih]

/-! ### Generic `updatev` lemmas

`dict.update` with an argument carrying the same keys in the same order is
the identity on the argument; fresh keys are appended in order. -/

theorem setv_append_of_none (o : Obj) (k : String) (v : Value)
    (h : getv o k = none) : setv o k v = o ++ [(k, v)] := by
  induction o with
  | nil => rfl
  | cons p t ih =>
    obtain ⟨k₀, v₀⟩ := p
    by_cases h0 : k₀ = k
    · rw [getv, if_pos h0] at h
      cases h
    · rw [getv, if_neg h0] at h
      rw [setv, if_neg h0, ih h, List.cons_append]

theorem updatev_foldl_append (o : Obj) (e₁ e₂ : Obj) :
    updatev o (e₁ ++ e₂) = updatev (updatev o e₁) e₂ := by
  simp [updatev, List.foldl_append]

theorem updatev_append_new : ∀ (e acc : Obj),
    (∀ k ∈ e.map Prod.fst, getv acc k = none) → NodupKeys e →
      updatev acc e = acc ++ e
  | [], acc => fun _ _ => by simp [updatev]
  | (k, v) :: t, acc => fun h hd => by
    have hd' : k ∉ t.map Prod.fst ∧ NodupKeys t := by
      simpa [NodupKeys] using hd
    have hstep : ∀ k' ∈ t.map Prod.fst, getv (setv acc k v) k' = none := by
      intro k' hk'
      have hne : k' ≠ k := fun he => hd'.1 (he ▸ hk')
      rw [getv_setv_ne _ _ _ _ hne]
      exact h k' (by simp [hk'])
    show updatev (setv acc k v) t = acc ++ (k, v) :: t
    rw [updatev_append_new t _ hstep hd'.2,
      setv_append_of_none acc k v (h k (by simp)), List.append_assoc]
    rfl

theorem updatev_cons_head_notin : ∀ (e : Obj) (k : String) (x : Value) (o : Obj),
    k ∉ e.map Prod.fst → updatev ((k, x) :: o) e = (k, x) :: updatev o e
  | [], _, _, _ => fun _ => rfl
  | (k₁, v₁) :: t, k, x, o => fun h => by
    simp only [List.map_cons, List.mem_cons, not_or] at h
    have hne : ¬(k = k₁) := h.1
    show updatev (setv ((k, x) :: o) k₁ v₁) t = _
    rw [setv, if_neg hne]
    exact updatev_cons_head_notin t k x (setv o k₁ v₁) h.2

theorem updatev_same_keys : ∀ (o e : Obj),
    o.map Prod.fst = e.map Prod.fst → NodupKeys e → updatev o e = e
  | [], [] => fun _ _ => rfl
  | [], (k, v) :: t => fun h _ => by simp at h
  | (k₀, v₀) :: o', [] => fun h _ => by simp at h
  | (k₀, v₀) :: o', (k, v') :: t => fun h hd => by
    simp only [List.map_cons, List.cons.injEq] at h
    obtain ⟨hk, hrest⟩ := h
    subst hk
    have hd' : k₀ ∉ t.map Prod.fst ∧ NodupKeys t := by
      simpa [NodupKeys] using hd
    show updatev (setv ((k₀, v₀) :: o') k₀ v') t = (k₀, v') :: t
    rw [setv, if_pos rfl, updatev_cons_head_notin t k₀ v' o' hd'.1,
      updatev_same_keys o' t hrest hd'.2]

/-! ### Canonical-shaped records and the per-field cleaning actions

`canonObj` is the shape of a record produced by the pipeline (spec §3):
the 14 canonical fields in their fixed order, an owner sub-mapping with
its six keys, plus the retained `raw_data`.  The `*Slot` functions are
the per-field actions of one `clean_trademark` pass. -/

def ownerObj (onm oad oct ost oco opc : Value) : Obj :=
  [("name", onm), ("address", oad), ("city", oct), ("state", ost),
   ("country", oco), ("postal_code", opc)]

def repObj (rn rf ra rp re : Value) : Obj :=
  [("name", rn), ("firm", rf), ("address", ra), ("phone", rp), ("email", re)]

/-- The 14 canonical fields, in the order of `required_structure`. -/
def canonCore (v1 v2 v3 v4 v5 v6 v7 : Value) (cls : List Value) (ow : Obj)
    (rep : Value) (evs : List Value) (v8 v9 v10 : Value) : Obj :=
  [("registration_number", v1), ("serial_number", v2),
   ("registration_date", v3), ("expiry_date", v4), ("status", v5),
   ("mark_text", v6), ("mark_drawing_code", v7), ("classes", .list cls),
   ("owner", .obj ow), ("representative", rep), ("events", .list evs),
   ("filing_date", v8), ("published_date", v9), ("goods_services", v10)]

def canonObj (v1 v2 v3 v4 v5 v6 v7 : Value) (cls : List Value) (ow : Obj)
    (rep : Value) (evs : List Value) (v8 v9 v10 rd : Value) : Obj :=
  canonCore v1 v2 v3 v4 v5 v6 v7 cls ow rep evs v8 v9 v10 ++ [("raw_data", rd)]

/-- A canonical scalar: a string or null (spec §3 column types). -/
def ScalarOk (v : Value) : Prop := v = .null ∨ ∃ s, v = .str s

/-- A canonical representative: null or the five-key entity with
string-or-null phone and email. -/
def RepOk (rep : Value) : Prop :=
  rep = .null ∨ ∃ rn rf ra rp re, rep = .obj (repObj rn rf ra rp re) ∧
    ScalarOk rp ∧ ScalarOk re

/-- Action of one cleaning pass on `mark_text`/`status`/`goods_services`
and owner address/city (text normalization guarded by truthiness). -/
def txSlot (v : Value) : Value := if v.truthy then normalizeTextV v else v

/-- Action on the owner name: text normalization then suffix stripping. -/
def nameSlot (v : Value) : Value :=
  match v with
  | .str s => if s = "" then v else .str (stripLegalSuffix (normText s))
  | _ => v

/-- Action on owner state/country/postal_code: `.strip().upper()`. -/
def upSlot (v : Value) : Value :=
  match v with
  | .str s => if s = "" then v else .str (pyUpper (pyStrip s))
  | _ => v

/-- Action on the representative phone: keep digits and `+`. -/
def phoneSlot (v : Value) : Value :=
  match v with
  | .str s =>
    if s = "" then v
    else .str (String.mk (s.data.filter fun c => c.isDigit || c = '+'))
  | _ => v

/-- Action on the representative email: `.strip().lower()`. -/
def emailSlot (v : Value) : Value :=
  match v with
  | .str s => if s = "" then v else .str (pyLower (pyStrip s))
  | _ => v

theorem cleanTextField_eq (o : Obj) (k : String) (v : Value)
    (h : getv o k = some v) : cleanTextField o k = setv o k (txSlot v) := by
  rw [cleanTextField, h]
  show (if v.truthy = true then setv o k (normalizeTextV v) else o) =
    setv o k (txSlot v)
  rw [txSlot]
  by_cases hv : v.truthy = true
  · rw [if_pos hv, if_pos hv]
  · rw [if_neg hv, if_neg hv, setv_getv_eq o k v h]

theorem cleanNameField_eq (o : Obj) (v : Value)
    (h : getv o "name" = some v) (hs : ScalarOk v) :
    cleanNameField o = some (setv o "name" (nameSlot v)) := by
  rcases hs with h0 | ⟨s, h0⟩ <;> subst h0
  · rw [cleanNameField, h]
    show some o = some (setv o "name" (nameSlot .null))
    rw [show nameSlot .null = .null from rfl, setv_getv_eq o _ _ h]
  · by_cases he : s = ""
    · subst he
      rw [cleanNameField, h]
      show some o = some (setv o "name" (nameSlot (.str "")))
      rw [show nameSlot (.str "") = .str "" from rfl, setv_getv_eq o _ _ h]
    · rw [cleanNameField, h]
      show (if Value.truthy (.str s) = true then
          some (setv o "name" (.str (stripLegalSuffix (normText s))))
        else some o) = some (setv o "name" (nameSlot (.str s)))
      rw [if_pos (by simp [Value.truthy, he]), nameSlot, if_neg he]

theorem cleanUpperField_eq (o : Obj) (k : String) (v : Value)
    (h : getv o k = some v) (hs : ScalarOk v) :
    cleanUpperField o k = some (setv o k (upSlot v)) := by
  rcases hs with h0 | ⟨s, h0⟩ <;> subst h0
  · rw [cleanUpperField, h]
    show some o = some (setv o k (upSlot .null))
    rw [show upSlot .null = .null from rfl, setv_getv_eq o _ _ h]
  · by_cases he : s = ""
    · subst he
      rw [cleanUpperField, h]
      show some o = some (setv o k (upSlot (.str "")))
      rw [show upSlot (.str "") = .str "" from rfl, setv_getv_eq o _ _ h]
    · rw [cleanUpperField, h]
      show (if Value.truthy (.str s) = true then
          some (setv o k (.str (pyUpper (pyStrip s))))
        else some o) = some (setv o k (upSlot (.str s)))
      rw [if_pos (by simp [Value.truthy, he]), upSlot, if_neg he]

theorem cleanPhoneField_eq (o : Obj) (v : Value)
    (h : getv o "phone" = some v) (hs : ScalarOk v) :
    cleanPhoneField o = some (setv o "phone" (phoneSlot v)) := by
  rcases hs with h0 | ⟨s, h0⟩ <;> subst h0
  · rw [cleanPhoneField, h]
    show some o = some (setv o "phone" (phoneSlot .null))
    rw [show phoneSlot .null = .null from rfl, setv_getv_eq o _ _ h]
  · by_cases he : s = ""
    · subst he
      rw [cleanPhoneField, h]
      show some o = some (setv o "phone" (phoneSlot (.str "")))
      rw [show phoneSlot (.str "") = .str "" from rfl, setv_getv_eq o _ _ h]
    · rw [cleanPhoneField, h]
      show (if Value.truthy (.str s) = true then
          some (setv o "phone"
            (.str (String.mk (s.data.filter fun c => c.isDigit || c = '+'))))
        else some o) = some (setv o "phone" (phoneSlot (.str s)))
      rw [if_pos (by simp [Value.truthy, he]), phoneSlot, if_neg he]

theorem cleanEmailField_eq (o : Obj) (v : Value)
    (h : getv o "email" = some v) (hs : ScalarOk v) :
    cleanEmailField o = some (setv o "email" (emailSlot v)) := by
  rcases hs with h0 | ⟨s, h0⟩ <;> subst h0
  · rw [cleanEmailField, h]
    show some o = some (setv o "email" (emailSlot .null))
    rw [show emailSlot .null = .null from rfl, setv_getv_eq o _ _ h]
  · by_cases he : s = ""
    · subst he
      rw [cleanEmailField, h]
      show some o = some (setv o "email" (emailSlot (.str "")))
      rw [show emailSlot (.str "") = .str "" from rfl, setv_getv_eq o _ _ h]
    · rw [cleanEmailField, h]
      show (if Value.truthy (.str s) = true then
          some (setv o "email" (.str (pyLower (pyStrip s))))
        else some o) = some (setv o "email" (emailSlot (.str s)))
      rw [if_pos (by simp [Value.truthy, he]), emailSlot, if_neg he]

/-! Idempotence of the per-field actions. -/

theorem normalizeTextV_str (s : String) (h : s ≠ "") :
    normalizeTextV (.str s) = .str (normText s) := by
  rw [normalizeTextV, if_neg h]

theorem txSlot_id_of_not_str (v : Value) (h : ∀ u, v ≠ .str u) :
    txSlot v = v := by
  have hn : normalizeTextV v = v := by
    cases v with
    | str s => exact absurd rfl (h s)
    | null => rfl
    | bool b => rfl
    | int n => rfl
    | list xs => rfl
    | obj fs => rfl
    | dtime y mo d hh mi se => rfl
  rw [txSlot, hn, ite_self]

theorem txSlot_idem (v : Value) : txSlot (txSlot v) = txSlot v := by
  cases v with
  | str s =>
    by_cases he : s = ""
    · subst he
      rfl
    · have h1 : txSlot (.str s) = .str (normText s) := by
        rw [txSlot, if_pos (by simp [Value.truthy, he]), normalizeTextV_str s he]
      rw [h1]
      by_cases hn : normText s = ""
      · rw [txSlot, if_neg (by simp [Value.truthy, hn])]
      · rw [txSlot, if_pos (by simp [Value.truthy, hn]),
          normalizeTextV_str _ hn, normText_idem]
  | null =>
    rw [txSlot_id_of_not_str Value.null (fun u hh => Value.noConfusion hh),
      txSlot_id_of_not_str Value.null (fun u hh => Value.noConfusion hh)]
  | bool b =>
    rw [txSlot_id_of_not_str (Value.bool b) (fun u hh => Value.noConfusion hh),
      txSlot_id_of_not_str (Value.bool b) (fun u hh => Value.noConfusion hh)]
  | int n =>
    rw [txSlot_id_of_not_str (Value.int n) (fun u hh => Value.noConfusion hh),
      txSlot_id_of_not_str (Value.int n) (fun u hh => Value.noConfusion hh)]
  | list xs =>
    rw [txSlot_id_of_not_str (Value.list xs) (fun u hh => Value.noConfusion hh),
      txSlot_id_of_not_str (Value.list xs) (fun u hh => Value.noConfusion hh)]
  | obj fs =>
    rw [txSlot_id_of_not_str (Value.obj fs) (fun u hh => Value.noConfusion hh),
      txSlot_id_of_not_str (Value.obj fs) (fun u hh => Value.noConfusion hh)]
  | dtime y mo d hh mi se =>
    rw [txSlot_id_of_not_str (Value.dtime y mo d hh mi se)
        (fun u hh => Value.noConfusion hh),
      txSlot_id_of_not_str (Value.dtime y mo d hh mi se)
        (fun u hh => Value.noConfusion hh)]

theorem nameSlot_scalarOk (v : Value) (h : ScalarOk v) : ScalarOk (nameSlot v) := by
  rcases h with h0 | ⟨s, h0⟩ <;> subst h0
  · exact Or.inl rfl
  · by_cases he : s = ""
    · subst he
      exact Or.inr ⟨"", rfl⟩
    · rw [nameSlot, if_neg he]
      exact Or.inr ⟨_, rfl⟩

theorem txSlot_scalarOk (v : Value) (h : ScalarOk v) : ScalarOk (txSlot v) := by
  rcases h with h0 | ⟨s, h0⟩ <;> subst h0
  · exact Or.inl rfl
  · by_cases he : s = ""
    · subst he
      exact Or.inr ⟨"", rfl⟩
    · rw [txSlot, if_pos (by simp [Value.truthy, he]), normalizeTextV_str s he]
      exact Or.inr ⟨_, rfl⟩

theorem upSlot_scalarOk (v : Value) (h : ScalarOk v) : ScalarOk (upSlot v) := by
  rcases h with h0 | ⟨s, h0⟩ <;> subst h0
  · exact Or.inl rfl
  · by_cases he : s = ""
    · subst he
      exact Or.inr ⟨"", rfl⟩
    · rw [upSlot, if_neg he]
      exact Or.inr ⟨_, rfl⟩

theorem phoneSlot_scalarOk (v : Value) (h : ScalarOk v) : ScalarOk (phoneSlot v) := by
  rcases h with h0 | ⟨s, h0⟩ <;> subst h0
  · exact Or.inl rfl
  · by_cases he : s = ""
    · subst he
      exact Or.inr ⟨"", rfl⟩
    · rw [phoneSlot, if_neg he]
      exact Or.inr ⟨_, rfl⟩

theorem emailSlot_scalarOk (v : Value) (h : ScalarOk v) : ScalarOk (emailSlot v) := by
  rcases h with h0 | ⟨s, h0⟩ <;> subst h0
  · exact Or.inl rfl
  · by_cases he : s = ""
    · subst he
      exact Or.inr ⟨"", rfl⟩
    · rw [emailSlot, if_neg he]
      exact Or.inr ⟨_, rfl⟩

theorem nameSlot_idem (v : Value)
    (hfix : ∀ s, v = .str s →
      stripLegalSuffix (stripLegalSuffix (normText s)) =
        stripLegalSuffix (normText s)) :
    nameSlot (nameSlot v) = nameSlot v := by
  cases v with
  | str s =>
    by_cases he : s = ""
    · subst he
      rfl
    · have h1 : nameSlot (.str s) = .str (stripLegalSuffix (normText s)) := by
        rw [nameSlot, if_neg he]
      rw [h1]
      by_cases h2 : stripLegalSuffix (normText s) = ""
      · rw [h2]
        rfl
      · rw [nameSlot, if_neg h2, normText_stripLegalSuffix_normText s,
          hfix s rfl]
  | null => rfl
  | bool b => rfl
  | int n => rfl
  | list xs => rfl
  | obj fs => rfl
  | dtime y mo d hh mi se => rfl

/-- Action of one cleaning pass on a canonical representative value. -/
def repAction : Value → Value
  | .obj fs => .obj (repObj (txSlot (getD fs "name")) (txSlot (getD fs "firm"))
      (txSlot (getD fs "address")) (phoneSlot (getD fs "phone"))
      (emailSlot (getD fs "email")))
  | v => v

theorem cleanOwner_ownerObj (onm oad oct ost oco opc : Value)
    (hnm : ScalarOk onm) (hst : ScalarOk ost) (hco : ScalarOk oco)
    (hpc : ScalarOk opc) :
    cleanOwner (.obj (ownerObj onm oad oct ost oco opc)) =
      some (.obj (ownerObj (nameSlot onm) (txSlot oad) (txSlot oct)
        (upSlot ost) (upSlot oco) (upSlot opc))) := by
  rw [cleanOwner, if_neg (by simp [ownerObj, Value.truthy])]
  show (do
      let fs ← cleanNameField (ownerObj onm oad oct ost oco opc)
      let fs := cleanTextField fs "address"
      let fs := cleanTextField fs "city"
      let fs ← cleanUpperField fs "state"
      let fs ← cleanUpperField fs "country"
      let fs ← cleanUpperField fs "postal_code"
      pure (Value.obj fs)) = _
  rw [cleanNameField_eq (ownerObj onm oad oct ost oco opc) onm rfl hnm]
  simp only [Option.bind_eq_bind, Option.some_bind]
  rw [show setv (ownerObj onm oad oct ost oco opc) "name" (nameSlot onm) =
    ownerObj (nameSlot onm) oad oct ost oco opc from rfl]
  rw [cleanTextField_eq (ownerObj (nameSlot onm) oad oct ost oco opc) "address" oad rfl]
  rw [show setv (ownerObj (nameSlot onm) oad oct ost oco opc) "address"
    (txSlot oad) = ownerObj (nameSlot onm) (txSlot oad) oct ost oco opc
    from rfl]
  rw [cleanTextField_eq (ownerObj (nameSlot onm) (txSlot oad) oct ost oco opc) "city" oct rfl]
  rw [show setv (ownerObj (nameSlot onm) (txSlot oad) oct ost oco opc) "city"
    (txSlot oct) = ownerObj (nameSlot onm) (txSlot oad) (txSlot oct) ost oco
    opc from rfl]
  rw [cleanUpperField_eq (ownerObj (nameSlot onm) (txSlot oad) (txSlot oct) ost oco opc) "state" ost rfl hst]
  simp only [Option.some_bind]
  rw [show setv (ownerObj (nameSlot onm) (txSlot oad) (txSlot oct) ost oco
    opc) "state" (upSlot ost) = ownerObj (nameSlot onm) (txSlot oad)
    (txSlot oct) (upSlot ost) oco opc from rfl]
  rw [cleanUpperField_eq (ownerObj (nameSlot onm) (txSlot oad) (txSlot oct) (upSlot ost) oco opc) "country" oco rfl hco]
  simp only [Option.some_bind]
  rw [show setv (ownerObj (nameSlot onm) (txSlot oad) (txSlot oct)
    (upSlot ost) oco opc) "country" (upSlot oco) = ownerObj (nameSlot onm)
    (txSlot oad) (txSlot oct) (upSlot ost) (upSlot oco) opc from rfl]
  rw [cleanUpperField_eq (ownerObj (nameSlot onm) (txSlot oad) (txSlot oct) (upSlot ost) (upSlot oco) opc) "postal_code" opc rfl hpc]
  simp only [Option.some_bind]
  rw [show setv (ownerObj (nameSlot onm) (txSlot oad) (txSlot oct)
    (upSlot ost) (upSlot oco) opc) "postal_code" (upSlot opc) =
    ownerObj (nameSlot onm) (txSlot oad) (txSlot oct) (upSlot ost)
    (upSlot oco) (upSlot opc) from rfl]
  rfl

theorem cleanRepresentative_repObj (rn rf ra rp re : Value)
    (hp : ScalarOk rp) (he : ScalarOk re) :
    cleanRepresentative (.obj (repObj rn rf ra rp re)) =
      some (.obj (repObj (txSlot rn) (txSlot rf) (txSlot ra) (phoneSlot rp)
        (emailSlot re))) := by
  rw [cleanRepresentative, if_neg (by simp [repObj, Value.truthy])]
  show (do
      let fs ← cleanPhoneField (cleanTextField (cleanTextField
        (cleanTextField (repObj rn rf ra rp re) "name") "firm") "address")
      let fs ← cleanEmailField fs
      pure (Value.obj fs)) = _
  rw [cleanTextField_eq (repObj rn rf ra rp re) "name" rn rfl]
  rw [show setv (repObj rn rf ra rp re) "name" (txSlot rn) =
    repObj (txSlot rn) rf ra rp re from rfl]
  rw [cleanTextField_eq (repObj (txSlot rn) rf ra rp re) "firm" rf rfl]
  rw [show setv (repObj (txSlot rn) rf ra rp re) "firm" (txSlot rf) =
    repObj (txSlot rn) (txSlot rf) ra rp re from rfl]
  rw [cleanTextField_eq (repObj (txSlot rn) (txSlot rf) ra rp re) "address" ra rfl]
  rw [show setv (repObj (txSlot rn) (txSlot rf) ra rp re) "address"
    (txSlot ra) = repObj (txSlot rn) (txSlot rf) (txSlot ra) rp re from rfl]
  rw [cleanPhoneField_eq (repObj (txSlot rn) (txSlot rf) (txSlot ra) rp re) rp rfl hp]
  simp only [Option.bind_eq_bind, Option.some_bind]
  rw [show setv (repObj (txSlot rn) (txSlot rf) (txSlot ra) rp re) "phone"
    (phoneSlot rp) = repObj (txSlot rn) (txSlot rf) (txSlot ra)
    (phoneSlot rp) re from rfl]
  rw [cleanEmailField_eq (repObj (txSlot rn) (txSlot rf) (txSlot ra) (phoneSlot rp) re) re rfl he]
  simp only [Option.some_bind]
  rw [show setv (repObj (txSlot rn) (txSlot rf) (txSlot ra) (phoneSlot rp)
    re) "email" (emailSlot re) = repObj (txSlot rn) (txSlot rf) (txSlot ra)
    (phoneSlot rp) (emailSlot re) from rfl]
  rfl

theorem ensureRequiredFields_canonObj (v1 v2 v3 v4 v5 v6 v7 : Value)
    (cls : List Value) (a b c d e f : Value) (rep : Value)
    (evs : List Value) (v8 v9 v10 rd : Value) :
    ensureRequiredFields (canonObj v1 v2 v3 v4 v5 v6 v7 cls
      (ownerObj a b c d e f) rep evs v8 v9 v10 rd) =
    some (canonObj v1 v2 v3 v4 v5 v6 v7 cls (ownerObj a b c d e f) rep evs
      v8 v9 v10 rd) := by
  have hkeys : requiredStructure.map Prod.fst =
      (canonCore v1 v2 v3 v4 v5 v6 v7 cls (ownerObj a b c d e f) rep evs
        v8 v9 v10).map Prod.fst := rfl
  have hnodup : NodupKeys (canonCore v1 v2 v3 v4 v5 v6 v7 cls
      (ownerObj a b c d e f) rep evs v8 v9 v10) := by
    show (List.map Prod.fst _).Nodup
    rw [show (canonCore v1 v2 v3 v4 v5 v6 v7 cls (ownerObj a b c d e f)
      rep evs v8 v9 v10).map Prod.fst =
      ["registration_number", "serial_number", "registration_date",
       "expiry_date", "status", "mark_text", "mark_drawing_code", "classes",
       "owner", "representative", "events", "filing_date", "published_date",
       "goods_services"] from rfl]
    decide
  have hfresh : ∀ k ∈ ([(("raw_data" : String), rd)] : Obj).map Prod.fst,
      getv (canonCore v1 v2 v3 v4 v5 v6 v7 cls (ownerObj a b c d e f) rep
        evs v8 v9 v10) k = none := by
    intro k hk
    simp only [List.map_cons, List.map_nil, List.mem_singleton] at hk
    subst hk
    rfl
  have h1 : updatev requiredStructure (canonObj v1 v2 v3 v4 v5 v6 v7 cls
      (ownerObj a b c d e f) rep evs v8 v9 v10 rd) =
      canonObj v1 v2 v3 v4 v5 v6 v7 cls (ownerObj a b c d e f) rep evs
        v8 v9 v10 rd := by
    rw [canonObj, updatev_foldl_append,
      updatev_same_keys requiredStructure _ hkeys hnodup,
      updatev_append_new _ _ hfresh (by simp [NodupKeys])]
  have hget : getv (canonObj v1 v2 v3 v4 v5 v6 v7 cls (ownerObj a b c d e f)
      rep evs v8 v9 v10 rd) "owner" = some (.obj (ownerObj a b c d e f)) :=
    rfl
  have h2 : ensureOwnerField
      (canonObj v1 v2 v3 v4 v5 v6 v7 cls (ownerObj a b c d e f) rep evs
        v8 v9 v10 rd)
      (canonObj v1 v2 v3 v4 v5 v6 v7 cls (ownerObj a b c d e f) rep evs
        v8 v9 v10 rd) =
      some (canonObj v1 v2 v3 v4 v5 v6 v7 cls (ownerObj a b c d e f) rep
        evs v8 v9 v10 rd) := by
    rw [ensureOwnerField, hget]
    show (if Value.truthy (.obj (ownerObj a b c d e f)) = true then _ else _)
      = _
    rw [if_pos (by simp [ownerObj, Value.truthy])]
    show some (setv _ "owner"
      (.obj (updatev requiredOwnerStructure (ownerObj a b c d e f)))) = _
    rw [updatev_same_keys requiredOwnerStructure (ownerObj a b c d e f) rfl
        (by
          show (List.map Prod.fst _).Nodup
          rw [show (ownerObj a b c d e f).map Prod.fst =
            ["name", "address", "city", "state", "country", "postal_code"]
            from rfl]
          decide),
      setv_getv_eq _ _ _ hget]
  have h3 : coerceListField (canonObj v1 v2 v3 v4 v5 v6 v7 cls
      (ownerObj a b c d e f) rep evs v8 v9 v10 rd) "classes" =
      canonObj v1 v2 v3 v4 v5 v6 v7 cls (ownerObj a b c d e f) rep evs
        v8 v9 v10 rd := rfl
  have h4 : coerceListField (canonObj v1 v2 v3 v4 v5 v6 v7 cls
      (ownerObj a b c d e f) rep evs v8 v9 v10 rd) "events" =
      canonObj v1 v2 v3 v4 v5 v6 v7 cls (ownerObj a b c d e f) rep evs
        v8 v9 v10 rd := rfl
  rw [ensureRequiredFields, h1, h2]
  simp only [Option.bind_eq_bind, Option.some_bind]
  rw [h3, h4]
  rfl

theorem cleanOwnerStep_of_obj (cleaned : Obj) (ow : Obj) (ow' : Value)
    (hget : getv cleaned "owner" = some (.obj ow)) (hne : ow ≠ [])
    (hclean : cleanOwner (.obj ow) = some ow') :
    cleanOwnerStep cleaned = some (setv cleaned "owner" ow') := by
  rw [cleanOwnerStep, hget]
  show (if Value.truthy (.obj ow) = true then do
      let ov' ← cleanOwner (.obj ow)
      pure (setv cleaned "owner" ov')
    else pure cleaned) = _
  rw [if_pos (by simp [Value.truthy, List.isEmpty_eq_true, hne]), hclean]
  rfl

theorem cleanRepStep_of_obj (cleaned : Obj) (ro : Obj) (rv' : Value)
    (hget : getv cleaned "representative" = some (.obj ro)) (hne : ro ≠ [])
    (hclean : cleanRepresentative (.obj ro) = some rv') :
    cleanRepStep cleaned = some (setv cleaned "representative" rv') := by
  rw [cleanRepStep, hget]
  show (if Value.truthy (.obj ro) = true then do
      let x ← cleanRepresentative (.obj ro)
      pure (setv cleaned "representative" x)
    else pure cleaned) = _
  rw [if_pos (by simp [Value.truthy, List.isEmpty_eq_true, hne]), hclean]
  rfl

theorem cleanRepStep_of_falsy (cleaned : Obj) (rv : Value)
    (hget : getv cleaned "representative" = some rv)
    (hf : rv.truthy = false) : cleanRepStep cleaned = some cleaned := by
  rw [cleanRepStep, hget]
  show (if rv.truthy = true then do
      let x ← cleanRepresentative rv
      pure (setv cleaned "representative" x)
    else pure cleaned) = _
  rw [if_neg (by simp [hf])]
  rfl

/-- The action of one `clean_trademark` pass on a canonical-shaped record:
every field is transformed by its slot action and the overall shape is
preserved. -/
theorem cleanTrademark_canonObj (v1 v2 v3 v4 v5 v6 v7 : Value)
    (cls : List Value) (onm oad oct ost oco opc : Value) (rep : Value)
    (evs : List Value) (v8 v9 v10 rd : Value)
    (hnm : ScalarOk onm) (hst : ScalarOk ost) (hco : ScalarOk oco)
    (hpc : ScalarOk opc) (hrep : RepOk rep) :
    cleanTrademark (canonObj v1 v2 v3 v4 v5 v6 v7 cls
      (ownerObj onm oad oct ost oco opc) rep evs v8 v9 v10 rd) =
    some (canonObj v1 v2 v3 v4 (txSlot v5) (txSlot v6) v7 cls
      (ownerObj (nameSlot onm) (txSlot oad) (txSlot oct) (upSlot ost)
        (upSlot oco) (upSlot opc)) (repAction rep) evs v8 v9 (txSlot v10)
      rd) := by
  have hL1 := cleanOwnerStep_of_obj
    (canonObj v1 v2 v3 v4 v5 v6 v7 cls (ownerObj onm oad oct ost oco opc)
      rep evs v8 v9 v10 rd)
    (ownerObj onm oad oct ost oco opc) _ rfl (by simp [ownerObj])
    (cleanOwner_ownerObj onm oad oct ost oco opc hnm hst hco hpc)
  rw [show setv (canonObj v1 v2 v3 v4 v5 v6 v7 cls
      (ownerObj onm oad oct ost oco opc) rep evs v8 v9 v10 rd) "owner"
      (.obj (ownerObj (nameSlot onm) (txSlot oad) (txSlot oct) (upSlot ost)
        (upSlot oco) (upSlot opc))) =
      canonObj v1 v2 v3 v4 v5 v6 v7 cls
        (ownerObj (nameSlot onm) (txSlot oad) (txSlot oct) (upSlot ost)
          (upSlot oco) (upSlot opc)) rep evs v8 v9 v10 rd from rfl] at hL1
  have htx : ∀ (a b c d e f : Value) (rv : Value),
      ensureRequiredFields (cleanTextField (cleanTextField (cleanTextField
        (canonObj v1 v2 v3 v4 v5 v6 v7 cls (ownerObj a b c d e f) rv evs
          v8 v9 v10 rd)
        "mark_text") "status") "goods_services") =
      some (canonObj v1 v2 v3 v4 (txSlot v5) (txSlot v6) v7 cls
        (ownerObj a b c d e f) rv evs v8 v9 (txSlot v10) rd) := by
    intro a b c d e f rv
    have ow : Obj := ownerObj a b c d e f
    rw [cleanTextField_eq (canonObj v1 v2 v3 v4 v5 v6 v7 cls
      (ownerObj a b c d e f) rv evs v8 v9 v10 rd) "mark_text" v6 rfl]
    rw [show setv (canonObj v1 v2 v3 v4 v5 v6 v7 cls (ownerObj a b c d e f)
      rv evs v8 v9 v10 rd)
      "mark_text" (txSlot v6) = canonObj v1 v2 v3 v4 v5 (txSlot v6) v7 cls
      (ownerObj a b c d e f) rv evs v8 v9 v10 rd from rfl]
    rw [cleanTextField_eq (canonObj v1 v2 v3 v4 v5 (txSlot v6) v7 cls
      (ownerObj a b c d e f) rv evs v8 v9 v10 rd) "status" v5 rfl]
    rw [show setv (canonObj v1 v2 v3 v4 v5 (txSlot v6) v7 cls
      (ownerObj a b c d e f) rv evs
      v8 v9 v10 rd) "status" (txSlot v5) = canonObj v1 v2 v3 v4 (txSlot v5)
      (txSlot v6) v7 cls (ownerObj a b c d e f) rv evs v8 v9 v10 rd
      from rfl]
    rw [cleanTextField_eq (canonObj v1 v2 v3 v4 (txSlot v5) (txSlot v6) v7
      cls (ownerObj a b c d e f) rv evs v8 v9 v10 rd) "goods_services" v10
      rfl]
    rw [show setv (canonObj v1 v2 v3 v4 (txSlot v5) (txSlot v6) v7 cls
      (ownerObj a b c d e f) rv
      evs v8 v9 v10 rd) "goods_services" (txSlot v10) = canonObj v1 v2 v3 v4
      (txSlot v5) (txSlot v6) v7 cls (ownerObj a b c d e f) rv evs v8 v9
      (txSlot v10) rd from rfl]
    exact ensureRequiredFields_canonObj v1 v2 v3 v4 (txSlot v5) (txSlot v6)
      v7 cls a b c d e f rv evs v8 v9 (txSlot v10) rd
  rcases hrep with hnull | ⟨rn, rf, ra, rp, re, hrepeq, hp, he⟩
  · subst hnull
    have hL2 := cleanRepStep_of_falsy
      (canonObj v1 v2 v3 v4 v5 v6 v7 cls
        (ownerObj (nameSlot onm) (txSlot oad) (txSlot oct) (upSlot ost)
          (upSlot oco) (upSlot opc)) .null evs v8 v9 v10 rd)
      .null rfl rfl
    rw [cleanTrademark, hL1]
    simp only [Option.bind_eq_bind, Option.some_bind]
    rw [hL2]
    simp only [Option.some_bind]
    exact htx _ _ _ _ _ _ _
  · subst hrepeq
    have hL2 := cleanRepStep_of_obj
      (canonObj v1 v2 v3 v4 v5 v6 v7 cls
        (ownerObj (nameSlot onm) (txSlot oad) (txSlot oct) (upSlot ost)
          (upSlot oco) (upSlot opc)) (.obj (repObj rn rf ra rp re)) evs
        v8 v9 v10 rd)
      (repObj rn rf ra rp re) _ rfl (by simp [repObj])
      (cleanRepresentative_repObj rn rf ra rp re hp he)
    rw [show setv (canonObj v1 v2 v3 v4 v5 v6 v7 cls
        (ownerObj (nameSlot onm) (txSlot oad) (txSlot oct) (upSlot ost)
          (upSlot oco) (upSlot opc)) (.obj (repObj rn rf ra rp re)) evs
        v8 v9 v10 rd) "representative"
        (.obj (repObj (txSlot rn) (txSlot rf) (txSlot ra) (phoneSlot rp)
          (emailSlot re))) =
      canonObj v1 v2 v3 v4 v5 v6 v7 cls
        (ownerObj (nameSlot onm) (txSlot oad) (txSlot oct) (upSlot ost)
          (upSlot oco) (upSlot opc))
        (.obj (repObj (txSlot rn) (txSlot rf) (txSlot ra) (phoneSlot rp)
          (emailSlot re))) evs v8 v9 v10 rd from rfl] at hL2
    rw [cleanTrademark, hL1]
    simp only [Option.bind_eq_bind, Option.some_bind]
    rw [hL2]
    simp only [Option.some_bind]
    rw [show repAction (.obj (repObj rn rf ra rp re)) =
      .obj (repObj (txSlot rn) (txSlot rf) (txSlot ra) (phoneSlot rp)
        (emailSlot re)) from rfl]
    exact htx _ _ _ _ _ _ _

theorem upSlot_idem (v : Value) : upSlot (upSlot v) = upSlot v := by
  cases v with
  | str s =>
    by_cases he : s = ""
    · subst he
      rfl
    · have h1 : upSlot (.str s) = .str (pyUpper (pyStrip s)) := by
        rw [upSlot, if_neg he]
      rw [h1]
      by_cases h2 : pyUpper (pyStrip s) = ""
      · rw [h2]
        rfl
      · rw [upSlot, if_neg h2, pyStrip_pyUpper_pyStrip s, pyUpper_idem]
  | null => rfl
  | bool b => rfl
  | int n => rfl
  | list xs => rfl
  | obj fs => rfl
  | dtime y mo d hh mi se => rfl

theorem emailSlot_idem (v : Value) : emailSlot (emailSlot v) = emailSlot v := by
  cases v with
  | str s =>
    by_cases he : s = ""
    · subst he
      rfl
    · have h1 : emailSlot (.str s) = .str (pyLower (pyStrip s)) := by
        rw [emailSlot, if_neg he]
      rw [h1]
      by_cases h2 : pyLower (pyStrip s) = ""
      · rw [h2]
        rfl
      · rw [emailSlot, if_neg h2, pyStrip_pyLower_pyStrip s, pyLower_idem]
  | null => rfl
  | bool b => rfl
  | int n => rfl
  | list xs => rfl
  | obj fs => rfl
  | dtime y mo d hh mi se => rfl

theorem phoneSlot_idem (v : Value) : phoneSlot (phoneSlot v) = phoneSlot v := by
  cases v with
  | str s =>
    by_cases he : s = ""
    · subst he
      rfl
    · have h1 : phoneSlot (.str s) =
          .str (String.mk (s.data.filter fun c => c.isDigit || c = '+')) := by
        rw [phoneSlot, if_neg he]
      rw [h1]
      by_cases h2 :
          String.mk (s.data.filter fun c => c.isDigit || c = '+') = ""
      · rw [h2]
        rfl
      · rw [phoneSlot, if_neg h2]
        show Value.str (String.mk
          ((s.data.filter fun c => c.isDigit || c = '+').filter
            fun c => c.isDigit || c = '+')) = _
        rw [charFilter_idem]
  | null => rfl
  | bool b => rfl
  | int n => rfl
  | list xs => rfl
  | obj fs => rfl
  | dtime y mo d hh mi se => rfl

theorem repAction_repOk (rep : Value) (h : RepOk rep) :
    RepOk (repAction rep) := by
  rcases h with h0 | ⟨rn, rf, ra, rp, re, heq, hp, he⟩
  · subst h0
    exact Or.inl rfl
  · subst heq
    exact Or.inr ⟨txSlot rn, txSlot rf, txSlot ra, phoneSlot rp,
      emailSlot re, rfl, phoneSlot_scalarOk rp hp, emailSlot_scalarOk re he⟩

theorem repAction_idem (rep : Value) (h : RepOk rep) :
    repAction (repAction rep) = repAction rep := by
  rcases h with h0 | ⟨rn, rf, ra, rp, re, heq, hp, he⟩
  · subst h0
    rfl
  · subst heq
    rw [show repAction (.obj (repObj rn rf ra rp re)) =
      .obj (repObj (txSlot rn) (txSlot rf) (txSlot ra) (phoneSlot rp)
        (emailSlot re)) from rfl]
    rw [show repAction (.obj (repObj (txSlot rn) (txSlot rf) (txSlot ra)
        (phoneSlot rp) (emailSlot re))) =
      .obj (repObj (txSlot (txSlot rn)) (txSlot (txSlot rf))
        (txSlot (txSlot ra)) (phoneSlot (phoneSlot rp))
        (emailSlot (emailSlot re))) from rfl]
    rw [txSlot_idem, txSlot_idem, txSlot_idem, phoneSlot_idem,
      emailSlot_idem]


theorem nodupKeys_setv (o : Obj) (k : String) (v : Value) (h : NodupKeys o) :
    NodupKeys (setv o k v) := by
  induction o with
  | nil => simp [setv, NodupKeys]
  | cons p t ih =>
    obtain ⟨k₀, v₀⟩ := p
    simp only [NodupKeys, List.map_cons, List.nodup_cons] at h
    by_cases h0 : k₀ = k
    · simp only [setv, if_pos h0, NodupKeys, List.map_cons, List.nodup_cons]
      exact ⟨h0 ▸ h.1, h.2⟩
    · simp only [setv, if_neg h0, NodupKeys, List.map_cons, List.nodup_cons]
      refine ⟨?_, ih h.2⟩
      intro hc
      rcases (setv_map_fst_sub t k v) hc with hmem | heq
      · exact h.1 hmem
      · exact h0 heq

/-! ### Completeness of the canonical schema (claim C1) -/

def canonicalKeys : List String :=
  ["registration_number", "serial_number", "registration_date",
   "expiry_date", "status", "mark_text", "mark_drawing_code", "classes",
   "owner", "representative", "events", "filing_date", "published_date",
   "goods_services"]

def ownerKeys : List String :=
  ["name", "address", "city", "state", "country", "postal_code"]

/-- The canonical-schema completeness property of spec §3/§8: every
canonical key present, `classes`/`events` sequences, `owner` a mapping
carrying all six sub-keys. -/
def isCompleteCanonical (c : Obj) : Bool :=
  canonicalKeys.all (fun k => hasKey c k) &&
  (match getv c "classes" with
   | some (.list _) => true
   | _ => false) &&
  (match getv c "events" with
   | some (.list _) => true
   | _ => false) &&
  (match getv c "owner" with
   | some (.obj ofs) => ownerKeys.all (fun k => hasKey ofs k)
   | _ => false)

theorem coerce_hasKey (o : Obj) (k k' : String) (h : hasKey o k' = true) :
    hasKey (coerceListField o k) k' = true := by
  rw [coerceListField]
  split
  · exact h
  · exact hasKey_setv o k k' _ h

theorem coerce_getv_ne (o : Obj) (k k' : String) (h : k' ≠ k) :
    getv (coerceListField o k) k' = getv o k' := by
  rw [coerceListField]
  split
  · rfl
  · exact getv_setv_ne o k k' _ h

theorem coerce_list (o : Obj) (k : String) :
    ∃ l, getv (coerceListField o k) k = some (.list l) := by
  rw [coerceListField]
  split
  · next l heq => exact ⟨_, heq⟩
  · exact ⟨[], getv_setv_self o k _⟩

theorem ensureOwnerField_shape (record cleaned c : Obj)
    (h : ensureOwnerField record cleaned = some c) :
    ∃ ow : Obj, c = setv cleaned "owner" (.obj ow) ∧
      ∀ k ∈ ownerKeys, hasKey ow k = true := by
  rw [ensureOwnerField] at h
  have hreq : ∀ k ∈ ownerKeys, hasKey requiredOwnerStructure k = true := by
    decide
  split at h
  · next ov heq =>
    split at h
    · split at h
      · next ofs heqo =>
        refine ⟨updatev requiredOwnerStructure ofs, by
          injection h with h'
          rw [← h'], ?_⟩
        intro k hk
        exact hasKey_updatev_left ofs _ k (hreq k hk)
      · cases h
    · exact ⟨requiredOwnerStructure, by injection h with h'; rw [← h'], hreq⟩
  · exact ⟨requiredOwnerStructure, by injection h with h'; rw [← h'], hreq⟩

theorem ensureRequiredFields_complete (x c : Obj)
    (h : ensureRequiredFields x = some c) : isCompleteCanonical c = true := by
  rw [ensureRequiredFields] at h
  cases hOwn : ensureOwnerField x (updatev requiredStructure x) with
  | none =>
    rw [hOwn] at h
    cases h
  | some cleaned₁ =>
    rw [hOwn] at h
    simp only [Option.bind_eq_bind, Option.some_bind] at h
    injection h with h'
    obtain ⟨ow, hc1, hok⟩ := ensureOwnerField_shape _ _ _ hOwn
    have hbase : ∀ k ∈ canonicalKeys,
        hasKey (updatev requiredStructure x) k = true := by
      intro k hk
      refine hasKey_updatev_left x _ k ?_
      fin_cases hk <;> decide
    have hk1 : ∀ k ∈ canonicalKeys, hasKey cleaned₁ k = true := by
      intro k hk
      rw [hc1]
      exact hasKey_setv _ _ _ _ (hbase k hk)
    have how1 : getv cleaned₁ "owner" = some (.obj ow) := by
      rw [hc1]
      exact getv_setv_self _ _ _
    obtain ⟨lc, hlc⟩ := coerce_list cleaned₁ "classes"
    have hc2own : getv (coerceListField cleaned₁ "classes") "owner" =
        some (.obj ow) := by
      rw [coerce_getv_ne _ _ _ (by decide)]
      exact how1
    obtain ⟨le, hle⟩ := coerce_list (coerceListField cleaned₁ "classes") "events"
    rw [← h']
    rw [isCompleteCanonical]
    simp only [Bool.and_eq_true]
    refine ⟨⟨⟨?_, ?_⟩, ?_⟩, ?_⟩
    · rw [List.all_eq_true]
      intro k hk
      exact coerce_hasKey _ _ _ (coerce_hasKey _ _ _ (hk1 k hk))
    · rw [coerce_getv_ne _ _ _ (by decide), hlc]
    · rw [hle]
    · rw [coerce_getv_ne _ _ _ (by decide), hc2own]
      rw [List.all_eq_true]
      intro k hk
      exact hok k hk

theorem cleanTrademark_through_ensure (r c : Obj)
    (h : cleanTrademark r = some c) :
    ∃ x, ensureRequiredFields x = some c := by
  rw [cleanTrademark] at h
  cases h1 : cleanOwnerStep r with
  | none =>
    rw [h1] at h
    cases h
  | some r1 =>
    rw [h1] at h
    simp only [Option.bind_eq_bind, Option.some_bind] at h
    cases h2 : cleanRepStep r1 with
    | none =>
      rw [h2] at h
      cases h
    | some r2 =>
      rw [h2] at h
      simp only [Option.some_bind] at h
      exact ⟨_, h⟩

/-! ### The claims -/

/-- C1: for every raw mapping input, the record produced by extraction
(`DataTransformer.transform_trademark`) followed by normalization
(`DataCleaner.clean_trademark`) contains every field of the canonical
schema, with `classes` and `events` always sequences and `owner` always a
mapping carrying all six sub-keys — no canonical key is ever missing. -/
theorem claim_C1_completeness (r t c : Obj)
    (_h1 : transformTrademark r = some t) (h2 : cleanTrademark t = some c) :
    isCompleteCanonical c = true := by
  obtain ⟨x, hx⟩ := cleanTrademark_through_ensure t c h2
  exact ensureRequiredFields_complete x c hx

/-- The end-to-end example record of spec §8. -/
def c1WitnessRaw : Obj :=
  [("application_number", .str "RN123"),
   ("Application Date", .str "01.02.2020"),
   ("owner", .obj [("name", .str "Acme Corp.")])]

def c1WitnessT : Obj :=
  [("registration_number", (.str "RN123")), ("serial_number", .null),
   ("registration_date", .null), ("expiry_date", .null), ("status", .null),
   ("mark_text", .null), ("mark_drawing_code", .null),
   ("classes", (.list [])),
   ("owner", (.obj [("name", (.str "Acme Corp.")), ("address", .null),
     ("city", .null), ("state", .null), ("country", .null),
     ("postal_code", .null)])),
   ("representative", .null), ("events", (.list [])),
   ("filing_date", (.str "2020-02-01")), ("published_date", .null),
   ("goods_services", .null), ("raw_data", (.obj c1WitnessRaw))]

def c1WitnessC : Obj :=
  [("registration_number", (.str "RN123")), ("serial_number", .null),
   ("registration_date", .null), ("expiry_date", .null), ("status", .null),
   ("mark_text", .null), ("mark_drawing_code", .null),
   ("classes", (.list [])),
   ("owner", (.obj [("name", (.str "Acme")), ("address", .null),
     ("city", .null), ("state", .null), ("country", .null),
     ("postal_code", .null)])),
   ("representative", .null), ("events", (.list [])),
   ("filing_date", (.str "2020-02-01")), ("published_date", .null),
   ("goods_services", .null), ("raw_data", (.obj c1WitnessRaw))]

theorem claim_C1_completeness_witness :
    transformTrademark c1WitnessRaw = some c1WitnessT ∧
    cleanTrademark c1WitnessT = some c1WitnessC ∧
    isCompleteCanonical c1WitnessC = true :=
  ⟨by decide, by decide,
    claim_C1_completeness c1WitnessRaw c1WitnessT c1WitnessC (by decide)
      (by decide)⟩

/-- A canonical-shaped record whose owner name carries two stacked legal
suffixes. -/
def c2CounterRecord : Obj :=
  canonObj .null .null .null .null .null .null .null []
    (ownerObj (.str "Acme Corp. Inc.") .null .null .null .null .null)
    .null [] .null .null .null .null

/-- C2 counterexample: `clean_trademark` is not idempotent on every
canonical-shaped record.  On a record whose owner name is
`"Acme Corp. Inc."` the first pass strips only the trailing `"Inc."`
(yielding `"Acme Corp."`), and a second pass strips `"Corp."` as well, so
`clean(clean x)` differs from `clean x`. -/
theorem claim_C2_counterexample :
    ((cleanTrademark c2CounterRecord).bind cleanTrademark) ≠
      cleanTrademark c2CounterRecord := by decide

/-- C4: `_normalize_date` maps each supported pattern to exactly the
`YYYY-MM-DD` rendering (no exception, the inner `some` the returned
string) — `"15.03.2021"`, `"2021-03-15T10:00:00Z"` and `"March 15, 2021"`
all yield `"2021-03-15"`, and the ambiguous `"01/02/2020"` is resolved by
format-list order (`%m/%d/%Y` is tried before `%d/%m/%Y`), yielding
`"2020-01-02"`. -/
theorem claim_C4_date_normalization :
    normalizeDate (.str "15.03.2021") = some (some "2021-03-15") ∧
    normalizeDate (.str "2021-03-15T10:00:00Z") =
      some (some "2021-03-15") ∧
    normalizeDate (.str "March 15, 2021") = some (some "2021-03-15") ∧
    normalizeDate (.str "01/02/2020") = some (some "2020-01-02") := by
  refine ⟨?_, ?_, ?_, ?_⟩ <;> decide

/-- C6 counterexample: the general totality part of the claim fails.
`clean_trademark({"owner": "Acme"})` raises `AttributeError` at
`owner.copy()` (a string has no `copy`), and
`transform_trademark({"raw_data": 1})` raises at `raw_data.get(...)` —
both for mapping-shaped inputs. -/
theorem claim_C6_counterexample :
    cleanTrademark [("owner", .str "Acme")] = none ∧
    transformTrademark [("raw_data", .int 1)] = none :=
  ⟨by decide, by decide⟩

/-- C6 (amended): `_normalize_date` is *not* total — the format-list walk
and `float()` can only raise caught `ValueError`s, but the
numeric-timestamp fallback can raise uncaught: `OverflowError` escapes
both branches (the numeric branch catches only `ValueError, OSError`,
the string branch only `ValueError, TypeError`), and `OSError` escapes
the string branch.  So every input either raises (`none`), returns
`None` (`some none`), or returns a `YYYY-MM-DD` rendering; concretely
`_normalize_date(10 ** 20)` raises `OverflowError`,
`_normalize_date("100000000000000000")` raises `OSError` (the same
timestamp as an `int` is caught and gives `None`), while a plain
unparseable string gives `None`.  The broader claim that *every* core
function is exception-free on every mapping-shaped input is refuted by
the counterexample. -/
theorem claim_C6_date_totality_amended (v : Value) :
    (normalizeDate v = none ∨ normalizeDate v = some none ∨
      ∃ y m d, normalizeDate v = some (some (renderDate y m d))) ∧
    normalizeDate (.int (10 ^ 20)) = none ∧
    normalizeDate (.str "100000000000000000") = none ∧
    normalizeDate (.int (10 ^ 17)) = some none ∧
    normalizeDate (.str "not a date") = some none ∧
    normalizeDate (.int 1700000000) = some (some "2023-11-14") := by
  refine ⟨?_, by decide, by decide, by decide, by decide, by decide⟩
  cases v with
  | null => exact Or.inr (Or.inl rfl)
  | str s =>
    have hrw : normalizeDate (.str s) =
        (match tryFormats s.data with
         | some (y, m, d) => some (some (renderDate y m d))
         | none =>
           match pyParseFloatFloor s with
           | some t =>
             match fromtimestampUTC t with
             | .ok y m d => some (some (renderDate y m d))
             | .errValue => some none
             | .errOS => none
             | .errOverflow => none
           | none => some none) := rfl
    rw [hrw]
    cases htf : tryFormats s.data with
    | some ymd =>
      obtain ⟨y, md⟩ := ymd
      obtain ⟨m, d⟩ := md
      exact Or.inr (Or.inr ⟨y, m, d, rfl⟩)
    | none =>
      cases hpf : pyParseFloatFloor s with
      | none => exact Or.inr (Or.inl rfl)
      | some t =>
        show (match fromtimestampUTC t with
            | DtResult.ok y m d => some (some (renderDate y m d))
            | .errValue => some none
            | .errOS => none
            | .errOverflow => none) = none ∨
          (match fromtimestampUTC t with
            | DtResult.ok y m d => some (some (renderDate y m d))
            | .errValue => some none
            | .errOS => none
            | .errOverflow => none) = some none ∨
          ∃ y m d, (match fromtimestampUTC t with
            | DtResult.ok y m d => some (some (renderDate y m d))
            | .errValue => some none
            | .errOS => none
            | .errOverflow => none) = some (some (renderDate y m d))
        cases hft : fromtimestampUTC t with
        | ok y m d => exact Or.inr (Or.inr ⟨y, m, d, rfl⟩)
        | errValue => exact Or.inr (Or.inl rfl)
        | errOS => exact Or.inl rfl
        | errOverflow => exact Or.inl rfl
  | int n =>
    have hrw : normalizeDate (.int n) =
        (match fromtimestampUTC n with
         | .ok y m d => some (some (renderDate y m d))
         | .errValue => some none
         | .errOS => some none
         | .errOverflow => none) := rfl
    rw [hrw]
    cases hft : fromtimestampUTC n with
    | ok y m d => exact Or.inr (Or.inr ⟨y, m, d, rfl⟩)
    | errValue => exact Or.inr (Or.inl rfl)
    | errOS => exact Or.inr (Or.inl rfl)
    | errOverflow => exact Or.inl rfl
  | bool b =>
    have hrw : normalizeDate (.bool b) =
        (match fromtimestampUTC (if b then 1 else 0) with
         | .ok y m d => some (some (renderDate y m d))
         | .errValue => some none
         | .errOS => some none
         | .errOverflow => none) := rfl
    rw [hrw]
    cases hft : fromtimestampUTC (if b then 1 else 0) with
    | ok y m d => exact Or.inr (Or.inr ⟨y, m, d, rfl⟩)
    | errValue => exact Or.inr (Or.inl rfl)
    | errOS => exact Or.inr (Or.inl rfl)
    | errOverflow => exact Or.inl rfl
  | dtime y mo d hh mi se => exact Or.inr (Or.inr ⟨y, mo, d, rfl⟩)
  | list xs => exact Or.inr (Or.inl rfl)
  | obj fs => exact Or.inr (Or.inl rfl)

/-- C3: the source list built by `transform_trademark` is exactly
`[record, record["raw_data"], raw_data["_raw_excel_data"]]`, and
`_extract_field_multisource` respects that precedence: when the top-level
record yields nothing for the candidate keys (`None`) but the raw view
yields a non-null, non-empty-string value, that value is returned; when
the top level itself yields such a value, the top-level value wins. -/
theorem claim_C3_multisource_precedence (rec : Obj) (keys : List String)
    (srcs : List Value) (hsv : sourceViews rec = some srcs) :
    ∃ rawd ex, srcs = [.obj rec, .obj rawd, ex] ∧
      (∀ v, extractField rec keys = .null → extractField rawd keys = v →
        v ≠ .null → v ≠ .str "" →
        extractFieldMultisource srcs keys = v) ∧
      (∀ w, extractField rec keys = w → w ≠ .null → w ≠ .str "" →
        extractFieldMultisource srcs keys = w) := by
  have hsv' : (match orV (getD rec "raw_data") (.obj []) with
      | Value.obj rfs =>
        some [Value.obj rec, Value.obj rfs,
              orV (getD rfs "_raw_excel_data") (.obj [])]
      | _ => none) = some srcs := hsv
  revert hsv'
  cases orV (getD rec "raw_data") (.obj []) with
  | null => exact fun hsv' => Option.noConfusion hsv'
  | bool b => exact fun hsv' => Option.noConfusion hsv'
  | int n => exact fun hsv' => Option.noConfusion hsv'
  | str s => exact fun hsv' => Option.noConfusion hsv'
  | list xs => exact fun hsv' => Option.noConfusion hsv'
  | dtime y mo d hh mi se => exact fun hsv' => Option.noConfusion hsv'
  | obj rfs =>
    intro hsv'
    have hesrc : [Value.obj rec, Value.obj rfs,
        orV (getD rfs "_raw_excel_data") (.obj [])] = srcs := by
      injection hsv'
    refine ⟨rfs, orV (getD rfs "_raw_excel_data") (.obj []),
      hesrc.symm, ?_, ?_⟩
    · intro v h0 hv hn he
      rw [← hesrc]
      have hstep : extractFieldMultisource
          [Value.obj rec, Value.obj rfs,
           orV (getD rfs "_raw_excel_data") (.obj [])] keys =
          if extractField rec keys ≠ Value.null ∧
              extractField rec keys ≠ Value.str "" then
            extractField rec keys
          else extractFieldMultisource
            [Value.obj rfs, orV (getD rfs "_raw_excel_data") (.obj [])]
            keys := rfl
      rw [hstep, h0, if_neg (fun hc => hc.1 rfl)]
      have hstep2 : extractFieldMultisource
          [Value.obj rfs, orV (getD rfs "_raw_excel_data") (.obj [])]
          keys =
          if extractField rfs keys ≠ Value.null ∧
              extractField rfs keys ≠ Value.str "" then
            extractField rfs keys
          else extractFieldMultisource
            [orV (getD rfs "_raw_excel_data") (.obj [])] keys := rfl
      rw [hstep2, hv, if_pos ⟨hn, he⟩]
    · intro w hw hn he
      rw [← hesrc]
      have hstep : extractFieldMultisource
          [Value.obj rec, Value.obj rfs,
           orV (getD rfs "_raw_excel_data") (.obj [])] keys =
          if extractField rec keys ≠ Value.null ∧
              extractField rec keys ≠ Value.str "" then
            extractField rec keys
          else extractFieldMultisource
            [Value.obj rfs, orV (getD rfs "_raw_excel_data") (.obj [])]
            keys := rfl
      rw [hstep, hw, if_pos ⟨hn, he⟩]

def c3Raw : Obj := [("status", .str "Registered")]

def c3Rec : Obj := [("raw_data", .obj c3Raw)]

theorem claim_C3_multisource_precedence_witness :
    ∃ rawd ex,
      ([.obj c3Rec, .obj c3Raw, .obj []] : List Value) =
        [.obj c3Rec, .obj rawd, ex] ∧
      (∀ v, extractField c3Rec ["status"] = .null →
        extractField rawd ["status"] = v → v ≠ .null → v ≠ .str "" →
        extractFieldMultisource [.obj c3Rec, .obj c3Raw, .obj []]
          ["status"] = v) ∧
      (∀ w, extractField c3Rec ["status"] = w → w ≠ .null →
        w ≠ .str "" →
        extractFieldMultisource [.obj c3Rec, .obj c3Raw, .obj []]
          ["status"] = w) :=
  claim_C3_multisource_precedence c3Rec ["status"]
    [.obj c3Rec, .obj c3Raw, .obj []] (by decide)

/-- C7: `_extract_representative` never materializes an all-null entity —
a record with none of the representative keys yields `None`; a record
whose `representative` mapping carries only a (truthy) phone yields the
entity with only `phone` populated; and whenever a mapping is returned at
all, some sub-field is truthy (in particular non-null), mirroring the
`rep if any(rep.values()) else None` guard. -/
theorem claim_C7_representative_nullability (record : Obj) (p : String) :
    (firstPresent record ["representative", "attorney", "correspondent",
        "lawyer", "representativeName"] = none →
      extractRepresentative record = .null) ∧
    (getv record "representative" = some (.obj [("phone", .str p)]) →
      (Value.str p).truthy = true →
      extractRepresentative record =
        .obj [("name", .null), ("firm", .null), ("address", .null),
              ("phone", .str p), ("email", .null)]) ∧
    (∀ e, extractRepresentative record = .obj e →
      ∃ q, q ∈ e ∧ q.2.truthy = true ∧ q.2 ≠ .null) := by
  refine ⟨?_, ?_, ?_⟩
  · intro h
    have h1 : repEntity record = repDefault := by
      rw [repEntity.eq_def, h]
    have h2 : extractRepresentative record =
        if (repEntity record).any (fun q => q.2.truthy) then
          Value.obj (repEntity record)
        else .null := rfl
    rw [h2, h1]
    rfl
  · intro hgv hp
    have h0 : firstPresent record ["representative", "attorney",
        "correspondent", "lawyer", "representativeName"] =
        (match getv record "representative" with
         | some v => some v
         | none => firstPresent record ["attorney", "correspondent",
             "lawyer", "representativeName"]) := rfl
    have h1 : firstPresent record ["representative", "attorney",
        "correspondent", "lawyer", "representativeName"] =
        some (.obj [("phone", .str p)]) := by
      rw [h0, hgv]
    have h2 : repEntity record =
        [("name", .null), ("firm", .null), ("address", .null),
         ("phone", orV (.str p) .null), ("email", .null)] := by
      rw [repEntity.eq_def, h1]
      rfl
    have h3 : orV (.str p) .null = .str p := by
      rw [orV, if_pos]
      exact hp
    have h4 : extractRepresentative record =
        if (repEntity record).any (fun q => q.2.truthy) then
          Value.obj (repEntity record)
        else .null := rfl
    rw [h4, h2, h3]
    have hany : ([("name", Value.null), ("firm", Value.null),
        ("address", Value.null), ("phone", Value.str p),
        ("email", Value.null)].any (fun q => q.2.truthy)) = true := by
      simp [List.any, Value.truthy]
      simpa [Value.truthy] using hp
    rw [if_pos hany]
  · intro e h
    have key : ∀ (rp : Obj),
        (if rp.any (fun q => q.2.truthy) then Value.obj rp else .null) =
          .obj e →
        ∃ q, q ∈ e ∧ q.2.truthy = true ∧ q.2 ≠ .null := by
      intro rp hif
      cases hany : rp.any (fun q => q.2.truthy) with
      | false =>
        rw [hany] at hif
        simp at hif
      | true =>
        rw [hany] at hif
        simp only [if_true] at hif
        have he : rp = e := by
          injection hif
        subst he
        obtain ⟨q, hmem, htr⟩ := List.any_eq_true.mp hany
        refine ⟨q, hmem, htr, ?_⟩
        intro hn
        rw [hn] at htr
        exact Bool.noConfusion htr
    exact key _ h

def c7Rec : Obj := [("representative", .obj [("phone", .str "+1 555")])]

theorem claim_C7_representative_nullability_witness :
    extractRepresentative ([("status", .str "x")] : Obj) = .null ∧
    extractRepresentative c7Rec =
      .obj [("name", .null), ("firm", .null), ("address", .null),
            ("phone", .str "+1 555"), ("email", .null)] ∧
    (∃ q, q ∈ [("name", Value.null), ("firm", Value.null),
        ("address", Value.null), ("phone", Value.str "+1 555"),
        ("email", Value.null)] ∧ q.2.truthy = true ∧ q.2 ≠ .null) :=
  ⟨(claim_C7_representative_nullability [("status", .str "x")] "").1
      (by decide),
   (claim_C7_representative_nullability c7Rec "+1 555").2.1 (by decide)
      (by decide),
   (claim_C7_representative_nullability c7Rec "+1 555").2.2
     [("name", .null), ("firm", .null), ("address", .null),
      ("phone", .str "+1 555"), ("email", .null)]
     ((claim_C7_representative_nullability c7Rec "+1 555").2.1 (by decide)
       (by decide))⟩

/-- C8 counterexample: the fallback regex `[Cc]lass\s+(\d+)` varies the
case of the first letter only, so `"CLASS 9"` in the goods/services text
produces no class entry at all, while `"Class 9"` produces one. -/
theorem claim_C8_counterexample :
    extractClasses [("goodsServices", .str "CLASS 9")] = some [] ∧
    extractClasses [("goodsServices", .str "Class 9")] =
      some [.obj [("class_number", .str "9"), ("description", .null)]] :=
  ⟨by decide, by decide⟩

/-- C8 (amended): when no explicit class field is present anywhere and the
goods/services text is the only populated field, class extraction returns
exactly one entry per `re.findall(r'[Cc]lass\s+(\d+)', ·)` match — the
matched digits as `class_number`, `description` null.  Only the first
letter of `Class` is case-varying: `"Class 9"` and `"class 9"` match,
fully-uppercase `"CLASS 9"` does not, refuting the claimed full case
insensitivity. -/
theorem claim_C8_class_fallback_amended (g : String) (hg : g ≠ "") :
    extractClasses [("goodsServices", .str g)] =
      some ((findClassMatches g).map fun num =>
        .obj [("class_number", .str num), ("description", .null)]) ∧
    findClassMatches "Class 9, class 12" = ["9", "12"] ∧
    findClassMatches "CLASS 9" = [] := by
  refine ⟨?_, by decide, by decide⟩
  have hne : (Value.str g ≠ Value.null ∧ Value.str g ≠ Value.str "") :=
    ⟨fun h => Value.noConfusion h, fun h => hg (by injection h)⟩
  have h3 : extractField [("goodsServices", .str g)]
      ["goodsServices", "goods_services", "description"] = .str g := by
    have he : extractField [("goodsServices", .str g)]
        ["goodsServices", "goods_services", "description"] =
        if (Value.str g ≠ Value.null ∧ Value.str g ≠ Value.str "") then
          Value.str g
        else extractField [("goodsServices", .str g)]
          ["goods_services", "description"] := rfl
    rw [he, if_pos hne]
  have h4 : extractFieldMultisource
      [.obj [("goodsServices", .str g)], .obj [], .obj []]
      ["goodsServices", "goods_services", "description"] = .str g := by
    have he : extractFieldMultisource
        [.obj [("goodsServices", .str g)], .obj [], .obj []]
        ["goodsServices", "goods_services", "description"] =
        if (extractField [("goodsServices", .str g)]
              ["goodsServices", "goods_services", "description"] ≠
                Value.null ∧
            extractField [("goodsServices", .str g)]
              ["goodsServices", "goods_services", "description"] ≠
                Value.str "") then
          extractField [("goodsServices", .str g)]
            ["goodsServices", "goods_services", "description"]
        else extractFieldMultisource [.obj [], .obj []]
          ["goodsServices", "goods_services", "description"] := rfl
    rw [he, h3, if_pos hne]
  have h5 : extractClasses [("goodsServices", .str g)] =
      (if (extractFieldMultisource
            [.obj [("goodsServices", .str g)], .obj [], .obj []]
            ["goodsServices", "goods_services", "description"]).truthy then
        pure ((findClassMatches (pyStr (extractFieldMultisource
            [.obj [("goodsServices", .str g)], .obj [], .obj []]
            ["goodsServices", "goods_services", "description"]))).map
          fun num =>
            Value.obj [("class_number", .str num), ("description", .null)])
      else pure []) := rfl
  rw [h5, h4, if_pos (show (Value.str g).truthy = true from
    decide_eq_true hg)]
  rfl

theorem claim_C8_class_fallback_amended_witness :
    extractClasses [("goodsServices", .str "Class 9")] =
      some ((findClassMatches "Class 9").map fun num =>
        .obj [("class_number", .str num), ("description", .null)]) :=
  (claim_C8_class_fallback_amended "Class 9" (by decide)).1

theorem getv_flattenOwnerStep_ne (f : Obj) (k : String)
    (h1 : k ≠ "owner") (h2 : k ≠ "owner_name") (h3 : k ≠ "owner_address")
    (h4 : k ≠ "owner_city") (h5 : k ≠ "owner_state")
    (h6 : k ≠ "owner_country") (h7 : k ≠ "owner_postal_code") :
    getv (flattenOwnerStep f) k = getv f k := by
  cases hgo : getv f "owner" with
  | none =>
    have hid : flattenOwnerStep f = f := by
      rw [flattenOwnerStep.eq_def, hgo]
    rw [hid]
  | some v =>
    cases v with
    | obj ofs =>
      have hrw : flattenOwnerStep f =
          setv (setv (setv (setv (setv (setv (popv f "owner")
            "owner_name" (getD ofs "name"))
            "owner_address" (getD ofs "address"))
            "owner_city" (getD ofs "city"))
            "owner_state" (getD ofs "state"))
            "owner_country" (getD ofs "country"))
            "owner_postal_code" (getD ofs "postal_code") := by
        rw [flattenOwnerStep.eq_def, hgo]
      rw [hrw, getv_setv_ne _ _ _ _ h7, getv_setv_ne _ _ _ _ h6,
        getv_setv_ne _ _ _ _ h5, getv_setv_ne _ _ _ _ h4,
        getv_setv_ne _ _ _ _ h3, getv_setv_ne _ _ _ _ h2,
        getv_popv_ne _ _ _ h1]
    | null =>
      have hid : flattenOwnerStep f = f := by
        rw [flattenOwnerStep.eq_def, hgo]
      rw [hid]
    | bool b =>
      have hid : flattenOwnerStep f = f := by
        rw [flattenOwnerStep.eq_def, hgo]
      rw [hid]
    | int n =>
      have hid : flattenOwnerStep f = f := by
        rw [flattenOwnerStep.eq_def, hgo]
      rw [hid]
    | str s =>
      have hid : flattenOwnerStep f = f := by
        rw [flattenOwnerStep.eq_def, hgo]
      rw [hid]
    | list xs =>
      have hid : flattenOwnerStep f = f := by
        rw [flattenOwnerStep.eq_def, hgo]
      rw [hid]
    | dtime y mo d hh mi se =>
      have hid : flattenOwnerStep f = f := by
        rw [flattenOwnerStep.eq_def, hgo]
      rw [hid]

theorem getv_flattenRepStep_ne (f : Obj) (k : String)
    (h1 : k ≠ "representative") (h2 : k ≠ "rep_name")
    (h3 : k ≠ "rep_firm") (h4 : k ≠ "rep_address") (h5 : k ≠ "rep_phone")
    (h6 : k ≠ "rep_email") :
    getv (flattenRepStep f) k = getv f k := by
  cases hgo : getv f "representative" with
  | none =>
    have hid : flattenRepStep f = f := by
      rw [flattenRepStep.eq_def, hgo]
    rw [hid]
  | some v =>
    cases v with
    | obj rfs =>
      have hrw : flattenRepStep f =
          setv (setv (setv (setv (setv (popv f "representative")
            "rep_name" (getD rfs "name"))
            "rep_firm" (getD rfs "firm"))
            "rep_address" (getD rfs "address"))
            "rep_phone" (getD rfs "phone"))
            "rep_email" (getD rfs "email") := by
        rw [flattenRepStep.eq_def, hgo]
      rw [hrw, getv_setv_ne _ _ _ _ h6, getv_setv_ne _ _ _ _ h5,
        getv_setv_ne _ _ _ _ h4, getv_setv_ne _ _ _ _ h3,
        getv_setv_ne _ _ _ _ h2, getv_popv_ne _ _ _ h1]
    | null =>
      have hid : flattenRepStep f = f := by
        rw [flattenRepStep.eq_def, hgo]
      rw [hid]
    | bool b =>
      have hid : flattenRepStep f = f := by
        rw [flattenRepStep.eq_def, hgo]
      rw [hid]
    | int n =>
      have hid : flattenRepStep f = f := by
        rw [flattenRepStep.eq_def, hgo]
      rw [hid]
    | str s =>
      have hid : flattenRepStep f = f := by
        rw [flattenRepStep.eq_def, hgo]
      rw [hid]
    | list xs =>
      have hid : flattenRepStep f = f := by
        rw [flattenRepStep.eq_def, hgo]
      rw [hid]
    | dtime y mo d hh mi se =>
      have hid : flattenRepStep f = f := by
        rw [flattenRepStep.eq_def, hgo]
      rw [hid]

theorem getv_flattenEventsStep_ne (f f' : Obj) (k : String)
    (h1 : k ≠ "events") (h2 : k ≠ "event_count")
    (h3 : k ≠ "latest_event_date") (h4 : k ≠ "latest_event_type")
    (hstep : flattenEventsStep f = some f') :
    getv f' k = getv f k := by
  cases hge : getv f "events" with
  | none =>
    have hrw : flattenEventsStep f =
        some (setv (setv (setv f "event_count" (.int 0))
          "latest_event_date" .null) "latest_event_type" .null) := by
      rw [flattenEventsStep.eq_def, hge]
      rfl
    rw [hrw] at hstep
    injection hstep with hh
    rw [← hh, getv_setv_ne _ _ _ _ h4, getv_setv_ne _ _ _ _ h3,
      getv_setv_ne _ _ _ _ h2]
  | some v =>
    cases v with
    | list es =>
      cases hlp : latestPair es with
      | none =>
        have hrw : flattenEventsStep f = none := by
          rw [flattenEventsStep.eq_def, hge]
          show (latestPair es).bind _ = none
          rw [hlp]
          rfl
        rw [hrw] at hstep
        exact Option.noConfusion hstep
      | some lat =>
        have hrw : flattenEventsStep f =
            some (setv (setv (setv (popv f "events")
              "event_count" (.int es.length))
              "latest_event_date" lat.1) "latest_event_type" lat.2) := by
          rw [flattenEventsStep.eq_def, hge]
          show (latestPair es).bind _ = _
          rw [hlp]
          rfl
        rw [hrw] at hstep
        injection hstep with hh
        rw [← hh, getv_setv_ne _ _ _ _ h4, getv_setv_ne _ _ _ _ h3,
          getv_setv_ne _ _ _ _ h2, getv_popv_ne _ _ _ h1]
    | null =>
      have hrw : flattenEventsStep f =
          some (setv (setv (setv f "event_count" (.int 0))
            "latest_event_date" .null) "latest_event_type" .null) := by
        rw [flattenEventsStep.eq_def, hge]
        rfl
      rw [hrw] at hstep
      injection hstep with hh
      rw [← hh, getv_setv_ne _ _ _ _ h4, getv_setv_ne _ _ _ _ h3,
        getv_setv_ne _ _ _ _ h2]
    | bool b =>
      have hrw : flattenEventsStep f =
          some (setv (setv (setv f "event_count" (.int 0))
            "latest_event_date" .null) "latest_event_type" .null) := by
        rw [flattenEventsStep.eq_def, hge]
        rfl
      rw [hrw] at hstep
      injection hstep with hh
      rw [← hh, getv_setv_ne _ _ _ _ h4, getv_setv_ne _ _ _ _ h3,
        getv_setv_ne _ _ _ _ h2]
    | int n =>
      have hrw : flattenEventsStep f =
          some (setv (setv (setv f "event_count" (.int 0))
            "latest_event_date" .null) "latest_event_type" .null) := by
        rw [flattenEventsStep.eq_def, hge]
        rfl
      rw [hrw] at hstep
      injection hstep with hh
      rw [← hh, getv_setv_ne _ _ _ _ h4, getv_setv_ne _ _ _ _ h3,
        getv_setv_ne _ _ _ _ h2]
    | str s =>
      have hrw : flattenEventsStep f =
          some (setv (setv (setv f "event_count" (.int 0))
            "latest_event_date" .null) "latest_event_type" .null) := by
        rw [flattenEventsStep.eq_def, hge]
        rfl
      rw [hrw] at hstep
      injection hstep with hh
      rw [← hh, getv_setv_ne _ _ _ _ h4, getv_setv_ne _ _ _ _ h3,
        getv_setv_ne _ _ _ _ h2]
    | obj fs =>
      have hrw : flattenEventsStep f =
          some (setv (setv (setv f "event_count" (.int 0))
            "latest_event_date" .null) "latest_event_type" .null) := by
        rw [flattenEventsStep.eq_def, hge]
        rfl
      rw [hrw] at hstep
      injection hstep with hh
      rw [← hh, getv_setv_ne _ _ _ _ h4, getv_setv_ne _ _ _ _ h3,
        getv_setv_ne _ _ _ _ h2]
    | dtime y mo d hh mi se =>
      have hrw : flattenEventsStep f =
          some (setv (setv (setv f "event_count" (.int 0))
            "latest_event_date" .null) "latest_event_type" .null) := by
        rw [flattenEventsStep.eq_def, hge]
        rfl
      rw [hrw] at hstep
      injection hstep with hh2
      rw [← hh2, getv_setv_ne _ _ _ _ h4, getv_setv_ne _ _ _ _ h3,
        getv_setv_ne _ _ _ _ h2]

/-- The "comma-joined string of only the *non-null* class numbers" of the
claim's wording, written from that wording for comparison with the code's
truthiness-filtered `classNumStrs`. -/
def specClassNumbers (cs : List Value) : Value :=
  let nums := cs.filterMap fun c =>
    match c with
    | .obj fs =>
      match getv fs "class_number" with
      | some v => if v ≠ .null then some (pyStr v) else none
      | none => none
    | _ => none
  if nums.isEmpty then .null else .str (", ".intercalate nums)

/-- C9 counterexample: the list comprehension filters on *truthiness* of
`class_number`, not non-nullness — for a class entry whose number is the
integer `0`, `flatten_record` emits `class_numbers = None` although the
non-null join of the claim's wording would be `"0"` (with
`class_count = 1`). -/
theorem claim_C9_counterexample :
    (flattenRecord [("classes",
        .list [.obj [("class_number", .int 0)]])]).bind
      (fun f => getv f "class_numbers") = some .null ∧
    specClassNumbers [.obj [("class_number", .int 0)]] = .str "0" :=
  ⟨by decide, by decide⟩

/-- C9 (amended): when the record's `classes` key holds a list and
`flatten_record` succeeds, `class_count` is the length of the *entire*
list, while `class_numbers` is the comma-join of `str(class_number)` over
only the entries whose `class_number` is *truthy* (so entries with a
missing, null, `0`, or empty-string number are counted but not listed),
null when no entry qualifies; `class_count` can therefore exceed the
number of listed values. -/
theorem claim_C9_flatten_classes_amended (r : Obj) (cs : List Value)
    (f : Obj) (hc : getv r "classes" = some (.list cs))
    (hf : flattenRecord r = some f) :
    (∃ ns, classNumStrs cs = some ns ∧
      getv f "class_numbers" =
        some (if ns.isEmpty then .null
          else .str (", ".intercalate ns))) ∧
    getv f "class_count" = some (.int cs.length) := by
  have hcg : getv (flattenRepStep (flattenOwnerStep r)) "classes" =
      some (.list cs) := by
    rw [getv_flattenRepStep_ne _ _ (by decide) (by decide) (by decide)
        (by decide) (by decide) (by decide),
      getv_flattenOwnerStep_ne _ _ (by decide) (by decide) (by decide)
        (by decide) (by decide) (by decide) (by decide)]
    exact hc
  have hf' : (flattenClassesStep (flattenRepStep (flattenOwnerStep r))).bind
      (fun x => (flattenEventsStep x).bind (fun y =>
        some (if hasKey y "raw_data" then popv y "raw_data" else y))) =
      some f := hf
  have hcs : flattenClassesStep (flattenRepStep (flattenOwnerStep r)) =
      (classNumStrs cs).bind (fun nums =>
        some (setv (setv (popv (flattenRepStep (flattenOwnerStep r))
            "classes")
          "class_numbers"
          (if nums.isEmpty then .null else .str (", ".intercalate nums)))
          "class_count" (.int cs.length))) := by
    rw [flattenClassesStep.eq_def, hcg]
    rfl
  rw [hcs] at hf'
  cases hns : classNumStrs cs with
  | none =>
    rw [hns] at hf'
    exact Option.noConfusion hf'
  | some ns =>
    rw [hns] at hf'
    have hf'' : (flattenEventsStep
        (setv (setv (popv (flattenRepStep (flattenOwnerStep r)) "classes")
          "class_numbers"
          (if ns.isEmpty then .null else .str (", ".intercalate ns)))
          "class_count" (.int cs.length))).bind (fun y =>
        some (if hasKey y "raw_data" then popv y "raw_data" else y)) =
        some f := hf'
    cases hev : flattenEventsStep
        (setv (setv (popv (flattenRepStep (flattenOwnerStep r)) "classes")
          "class_numbers"
          (if ns.isEmpty then .null else .str (", ".intercalate ns)))
          "class_count" (.int cs.length)) with
    | none =>
      rw [hev] at hf''
      exact Option.noConfusion hf''
    | some f2 =>
      rw [hev] at hf''
      injection hf'' with hff
      have hn2 : getv f2 "class_numbers" =
          some (if ns.isEmpty then .null
            else .str (", ".intercalate ns)) := by
        rw [getv_flattenEventsStep_ne _ _ _ (by decide) (by decide)
            (by decide) (by decide) hev,
          getv_setv_ne _ _ _ _ (by decide), getv_setv_self]
      have hc2 : getv f2 "class_count" = some (.int cs.length) := by
        rw [getv_flattenEventsStep_ne _ _ _ (by decide) (by decide)
            (by decide) (by decide) hev, getv_setv_self]
      rw [← hff]
      by_cases hrd : hasKey f2 "raw_data"
      · rw [if_pos hrd]
        exact ⟨⟨ns, rfl, by rw [getv_popv_ne _ _ _ (by decide)]; exact hn2⟩,
          by rw [getv_popv_ne _ _ _ (by decide)]; exact hc2⟩
      · rw [if_neg hrd]
        exact ⟨⟨ns, rfl, hn2⟩, hc2⟩

def c9Rec : Obj :=
  [("classes", .list [.obj [("class_number", .str "9")],
    .obj [("description", .str "misc")]])]

theorem claim_C9_flatten_classes_amended_witness :
    ∃ f, flattenRecord c9Rec = some f ∧
      ((∃ ns, classNumStrs [.obj [("class_number", .str "9")],
          .obj [("description", .str "misc")]] = some ns ∧
        getv f "class_numbers" =
          some (if ns.isEmpty then .null
            else .str (", ".intercalate ns))) ∧
      getv f "class_count" =
        some (.int ([.obj [("class_number", .str "9")],
          .obj [("description", .str "misc")]] : List Value).length)) :=
  ⟨[("class_numbers", (.str "9")), ("class_count", (.int (2))),
    ("event_count", (.int (0))), ("latest_event_date", .null),
    ("latest_event_type", .null)],
   by decide,
   claim_C9_flatten_classes_amended c9Rec
     [.obj [("class_number", .str "9")], .obj [("description", .str "misc")]]
     [("class_numbers", (.str "9")), ("class_count", (.int (2))),
      ("event_count", (.int (0))), ("latest_event_date", .null),
      ("latest_event_type", .null)]
     (by decide) (by decide)⟩

/-- Whether `\s+(<legal alternation>)$` matches anywhere in the string
(equivalently: the name ends in a whitespace-separated designator). -/
def hasTrailingLegalSuffix : List Char → Bool
  | [] => false
  | c :: cs => wsThenSuffix (c :: cs) || hasTrailingLegalSuffix cs

theorem isLegalSuffix_head (t : List Char) (h : isLegalSuffix t = true) :
    ∃ d t', t = d :: t' ∧ isPySpace d = false := by
  cases t with
  | nil => exact absurd h (by decide)
  | cons d t' =>
    refine ⟨d, t', rfl, ?_⟩
    obtain ⟨s, hs, hm⟩ := List.any_eq_true.mp h
    have hm' : (d :: t').map pyLowerChar = s := of_decide_eq_true hm
    have hhead : ∀ s' ∈ legalSuffixSet,
        isPySpace (s'.headD 'x') = false := by decide
    have hthis := hhead s hs
    rw [← hm'] at hthis
    simp only [List.map_cons, List.headD_cons] at hthis
    rw [← isPySpace_pyLowerChar d]
    exact hthis

theorem ws_take_drop (w : List Char) (d : Char) (t' : List Char)
    (hw : ∀ c ∈ w, isPySpace c = true) (hd : isPySpace d = false) :
    (w ++ d :: t').takeWhile isPySpace = w ∧
    (w ++ d :: t').dropWhile isPySpace = d :: t' := by
  induction w with
  | nil => simp [List.takeWhile_cons, List.dropWhile_cons, hd]
  | cons c w' ih =>
    have hc : isPySpace c = true := hw c (List.mem_cons_self _ _)
    have hw' : ∀ x ∈ w', isPySpace x = true :=
      fun x hx => hw x (List.mem_cons_of_mem _ hx)
    obtain ⟨ih1, ih2⟩ := ih hw'
    simp [List.takeWhile_cons, List.dropWhile_cons, hc, ih1, ih2]

theorem stripAux_eq_of_no_suffix :
    ∀ cs, hasTrailingLegalSuffix cs = false → stripAux cs = cs := by
  intro cs
  induction cs with
  | nil => intro _; rfl
  | cons c cs ih =>
    intro h
    simp only [hasTrailingLegalSuffix, Bool.or_eq_false_iff] at h
    simp [stripAux, h.1, ih h.2]

theorem stripAux_strips :
    ∀ cs, hasTrailingLegalSuffix cs = true →
      ∃ a w t, cs = a ++ w ++ t ∧ w ≠ [] ∧
        (∀ c ∈ w, isPySpace c = true) ∧ isLegalSuffix t = true ∧
        stripAux cs = a := by
  intro cs
  induction cs with
  | nil => intro h; exact absurd h (by decide)
  | cons c cs ih =>
    intro h
    by_cases h0 : wsThenSuffix (c :: cs) = true
    · have h0' := h0
      rw [wsThenSuffix, Bool.and_eq_true] at h0'
      have hws : ((c :: cs).takeWhile isPySpace) ≠ [] ∧
          isLegalSuffix ((c :: cs).dropWhile isPySpace) = true := by
        refine ⟨?_, h0'.2⟩
        intro he
        rw [he] at h0'
        simp at h0'
      refine ⟨[], (c :: cs).takeWhile isPySpace,
        (c :: cs).dropWhile isPySpace, ?_, hws.1, ?_, hws.2, ?_⟩
      · simp [List.takeWhile_append_dropWhile]
      · intro x hx
        exact List.mem_takeWhile_imp hx
      · simp [stripAux, h0]
    · have h1 : hasTrailingLegalSuffix cs = true := by
        simp only [hasTrailingLegalSuffix, Bool.or_eq_true] at h
        rcases h with h | h
        · exact absurd h h0
        · exact h
      obtain ⟨a, w, t, he, hw, hws, hl, hs⟩ := ih h1
      exact ⟨c :: a, w, t, by simp [he], hw, hws, hl,
        by simp [stripAux, h0, hs]⟩

theorem hasSuffix_of_decomp :
    ∀ (a w t : List Char), w ≠ [] → (∀ c ∈ w, isPySpace c = true) →
      isLegalSuffix t = true →
      hasTrailingLegalSuffix (a ++ w ++ t) = true := by
  intro a
  induction a with
  | nil =>
    intro w t hw hws hl
    obtain ⟨d, t', ht, hd⟩ := isLegalSuffix_head t hl
    subst ht
    cases w with
    | nil => exact absurd rfl hw
    | cons c w' =>
      obtain ⟨h1, h2⟩ := ws_take_drop (c :: w') d t' hws hd
      have hwst : wsThenSuffix ((c :: w') ++ d :: t') = true := by
        rw [wsThenSuffix, h1, h2]
        simp [hl]
      simp only [List.nil_append]
      show (wsThenSuffix (c :: (w' ++ d :: t')) ||
        hasTrailingLegalSuffix (w' ++ d :: t')) = true
      rw [show c :: (w' ++ d :: t') = (c :: w') ++ d :: t' from rfl, hwst]
      rfl
  | cons c a' ih =>
    intro w t hw hws hl
    show (wsThenSuffix (c :: (a' ++ w ++ t)) ||
      hasTrailingLegalSuffix (a' ++ w ++ t)) = true
    rw [ih w t hw hws hl]
    simp

/-- C5: the owner-name suffix strip removes a trailing legal-entity
designator (matched case-insensitively against the fixed alternation) iff
the name decomposes as `prefix ++ whitespace-run ++ designator`, and then
it removes exactly that one trailing whitespace-plus-designator block,
returning the prefix; `"Acme Corp."` strips to `"Acme"` while
`"Acme Corporation of America"` (designator not trailing) is returned
unchanged. -/
theorem claim_C5_suffix_stripping (s : String) :
    stripLegalSuffix "Acme Corp." = "Acme" ∧
    stripLegalSuffix "Acme Corporation of America" =
      "Acme Corporation of America" ∧
    ((∃ a w t, s.data = a ++ w ++ t ∧ w ≠ [] ∧
        (∀ c ∈ w, isPySpace c = true) ∧ isLegalSuffix t = true) →
      ∃ a w t, s.data = a ++ w ++ t ∧ w ≠ [] ∧
        (∀ c ∈ w, isPySpace c = true) ∧ isLegalSuffix t = true ∧
        stripLegalSuffix s = String.mk a) ∧
    ((¬ ∃ a w t, s.data = a ++ w ++ t ∧ w ≠ [] ∧
        (∀ c ∈ w, isPySpace c = true) ∧ isLegalSuffix t = true) →
      stripLegalSuffix s = s) := by
  refine ⟨by decide, by decide, ?_, ?_⟩
  · intro hdec
    obtain ⟨a, w, t, he, hw, hws, hl⟩ := hdec
    have hh : hasTrailingLegalSuffix s.data = true := by
      rw [he]
      exact hasSuffix_of_decomp a w t hw hws hl
    obtain ⟨a', w', t', he', hw', hws', hl', hs'⟩ :=
      stripAux_strips s.data hh
    exact ⟨a', w', t', he', hw', hws', hl',
      by rw [stripLegalSuffix, hs']⟩
  · intro hdec
    cases hh : hasTrailingLegalSuffix s.data with
    | false =>
      rw [stripLegalSuffix, stripAux_eq_of_no_suffix s.data hh]
    | true =>
      obtain ⟨a, w, t, he, hw, hws, hl, _⟩ := stripAux_strips s.data hh
      exact absurd ⟨a, w, t, he, hw, hws, hl⟩ hdec

theorem claim_C5_suffix_stripping_witness :
    ∃ a w t, ("Acme Corp.").data = a ++ w ++ t ∧ w ≠ [] ∧
      (∀ c ∈ w, isPySpace c = true) ∧ isLegalSuffix t = true ∧
      stripLegalSuffix "Acme Corp." = String.mk a :=
  (claim_C5_suffix_stripping "Acme Corp.").2.2.1
    ⟨"Acme".data, [' '], "Corp.".data, by decide, by decide, by decide,
      by decide⟩

theorem cleanOwnerStep_frame (r r1 : Obj) (k : String) (hko : k ≠ "owner")
    (h : cleanOwnerStep r = some r1) :
    getv r1 k = getv r k ∧ (NodupKeys r → NodupKeys r1) := by
  cases hgo : getv r "owner" with
  | none =>
    have hid : cleanOwnerStep r = some r := by
      rw [cleanOwnerStep.eq_def, hgo]
      rfl
    rw [hid] at h
    injection h with h'
    subst h'
    exact ⟨rfl, id⟩
  | some ov =>
    have hshape : cleanOwnerStep r =
        (if ov.truthy then
          (cleanOwner ov).bind (fun ov' => some (setv r "owner" ov'))
        else some r) := by
      rw [cleanOwnerStep.eq_def, hgo]
      rfl
    cases hb : ov.truthy with
    | false =>
      rw [hshape, hb, if_neg (fun hh => Bool.noConfusion hh)] at h
      injection h with h'
      subst h'
      exact ⟨rfl, id⟩
    | true =>
      rw [hshape, hb, if_pos rfl] at h
      cases hco : cleanOwner ov with
      | none =>
        rw [hco] at h
        exact Option.noConfusion h
      | some ov' =>
        rw [hco] at h
        injection h with h'
        subst h'
        exact ⟨getv_setv_ne _ _ _ _ hko, nodupKeys_setv _ _ _⟩

theorem cleanRepStep_frame (r r1 : Obj) (k : String)
    (hkr : k ≠ "representative") (h : cleanRepStep r = some r1) :
    getv r1 k = getv r k ∧ (NodupKeys r → NodupKeys r1) := by
  cases hgo : getv r "representative" with
  | none =>
    have hid : cleanRepStep r = some r := by
      rw [cleanRepStep.eq_def, hgo]
      rfl
    rw [hid] at h
    injection h with h'
    subst h'
    exact ⟨rfl, id⟩
  | some rv =>
    have hshape : cleanRepStep r =
        (if rv.truthy then
          (cleanRepresentative rv).bind
            (fun rv' => some (setv r "representative" rv'))
        else some r) := by
      rw [cleanRepStep.eq_def, hgo]
      rfl
    cases hb : rv.truthy with
    | false =>
      rw [hshape, hb, if_neg (fun hh => Bool.noConfusion hh)] at h
      injection h with h'
      subst h'
      exact ⟨rfl, id⟩
    | true =>
      rw [hshape, hb, if_pos rfl] at h
      cases hcr : cleanRepresentative rv with
      | none =>
        rw [hcr] at h
        exact Option.noConfusion h
      | some rv' =>
        rw [hcr] at h
        injection h with h'
        subst h'
        exact ⟨getv_setv_ne _ _ _ _ hkr, nodupKeys_setv _ _ _⟩

theorem cleanTextField_frame (fs : Obj) (key k : String) (hk : k ≠ key) :
    getv (cleanTextField fs key) k = getv fs k ∧
      (NodupKeys fs → NodupKeys (cleanTextField fs key)) := by
  cases hgv : getv fs key with
  | none =>
    have hid : cleanTextField fs key = fs := by
      rw [cleanTextField.eq_def, hgv]
    rw [hid]
    exact ⟨rfl, id⟩
  | some v =>
    have hshape : cleanTextField fs key =
        (if v.truthy then setv fs key (normalizeTextV v) else fs) := by
      rw [cleanTextField.eq_def, hgv]
    cases hb : v.truthy with
    | false =>
      rw [hshape, hb, if_neg (fun hh => Bool.noConfusion hh)]
      exact ⟨rfl, id⟩
    | true =>
      rw [hshape, hb, if_pos rfl]
      exact ⟨getv_setv_ne _ _ _ _ hk, nodupKeys_setv _ _ _⟩

theorem ensureRequiredFields_frame (x c : Obj) (k : String)
    (hnd : NodupKeys x) (hk : k ∉ canonicalKeys)
    (h : ensureRequiredFields x = some c) : getv c k = getv x k := by
  have hko : k ≠ "owner" := fun hh => hk (by rw [hh]; decide)
  have hkc : k ≠ "classes" := fun hh => hk (by rw [hh]; decide)
  have hke : k ≠ "events" := fun hh => hk (by rw [hh]; decide)
  have h' : (ensureOwnerField x (updatev requiredStructure x)).bind
      (fun cleaned => some (coerceListField
        (coerceListField cleaned "classes") "events")) = some c := h
  cases hE : ensureOwnerField x (updatev requiredStructure x) with
  | none =>
    rw [hE] at h'
    exact Option.noConfusion h'
  | some c1 =>
    rw [hE] at h'
    injection h' with h''
    obtain ⟨ow, hc1, _⟩ := ensureOwnerField_shape _ _ _ hE
    have hbase : getv (updatev requiredStructure x) k = getv x k := by
      cases hgx : getv x k with
      | none =>
        rw [getv_updatev_of_none x _ _ hgx]
        refine getv_eq_none_of_not_mem _ _ ?_
        have hmap : requiredStructure.map Prod.fst = canonicalKeys := by
          decide
        rw [hmap]
        exact hk
      | some v => exact getv_updatev_of_some x _ _ _ hnd hgx
    rw [← h'', coerce_getv_ne _ _ _ hke, coerce_getv_ne _ _ _ hkc, hc1,
      getv_setv_ne _ _ _ _ hko, hbase]

/-- C10: `clean_trademark` preserves every non-canonical key with its
value unchanged — `record.copy()` plus `cleaned.update(record)` inside
`_ensure_required_fields` re-inserts every key of the input, and all the
cleaning steps write only canonical keys. -/
theorem claim_C10_frame_preservation (r c : Obj) (k : String)
    (hnd : NodupKeys r) (hk : k ∉ canonicalKeys)
    (hc : cleanTrademark r = some c) : getv c k = getv r k := by
  have hko : k ≠ "owner" := fun hh => hk (by rw [hh]; decide)
  have hkr : k ≠ "representative" := fun hh => hk (by rw [hh]; decide)
  have hkm : k ≠ "mark_text" := fun hh => hk (by rw [hh]; decide)
  have hks : k ≠ "status" := fun hh => hk (by rw [hh]; decide)
  have hkg : k ≠ "goods_services" := fun hh => hk (by rw [hh]; decide)
  have hc' : (cleanOwnerStep r).bind (fun x => (cleanRepStep x).bind
      (fun y => ensureRequiredFields (cleanTextField (cleanTextField
        (cleanTextField y "mark_text") "status") "goods_services"))) =
      some c := hc
  cases h1 : cleanOwnerStep r with
  | none =>
    rw [h1] at hc'
    exact Option.noConfusion hc'
  | some r1 =>
    rw [h1] at hc'
    simp only [Option.some_bind] at hc'
    obtain ⟨hg1, hn1⟩ := cleanOwnerStep_frame r r1 k hko h1
    cases h2 : cleanRepStep r1 with
    | none =>
      rw [h2] at hc'
      exact Option.noConfusion hc'
    | some r2 =>
      rw [h2] at hc'
      simp only [Option.some_bind] at hc'
      obtain ⟨hg2, hn2⟩ := cleanRepStep_frame r1 r2 k hkr h2
      obtain ⟨hg3, hn3⟩ := cleanTextField_frame r2 "mark_text" k hkm
      obtain ⟨hg4, hn4⟩ :=
        cleanTextField_frame (cleanTextField r2 "mark_text") "status" k hks
      obtain ⟨hg5, hn5⟩ := cleanTextField_frame (cleanTextField
        (cleanTextField r2 "mark_text") "status") "goods_services" k hkg
      have hE : ensureRequiredFields (cleanTextField (cleanTextField
          (cleanTextField r2 "mark_text") "status") "goods_services") =
          some c := hc'
      have hnd5 : NodupKeys (cleanTextField (cleanTextField
          (cleanTextField r2 "mark_text") "status") "goods_services") :=
        hn5 (hn4 (hn3 (hn2 (hn1 hnd))))
      rw [ensureRequiredFields_frame _ c k hnd5 hk hE, hg5, hg4, hg3, hg2,
        hg1]

def c10Rec : Obj := [("extra_key", .int 7), ("status", .str "Registered")]

theorem claim_C10_frame_preservation_witness :
    getv [("registration_number", .null), ("serial_number", .null),
      ("registration_date", .null), ("expiry_date", .null),
      ("status", (.str "Registered")), ("mark_text", .null),
      ("mark_drawing_code", .null), ("classes", (.list [])),
      ("owner", (.obj [("name", .null), ("address", .null),
        ("city", .null), ("state", .null), ("country", .null),
        ("postal_code", .null)])),
      ("representative", .null), ("events", (.list [])),
      ("filing_date", .null), ("published_date", .null),
      ("goods_services", .null), ("extra_key", (.int (7)))]
      "extra_key" = getv c10Rec "extra_key" :=
  claim_C10_frame_preservation c10Rec
    [("registration_number", .null), ("serial_number", .null),
     ("registration_date", .null), ("expiry_date", .null),
     ("status", (.str "Registered")), ("mark_text", .null),
     ("mark_drawing_code", .null), ("classes", (.list [])),
     ("owner", (.obj [("name", .null), ("address", .null),
       ("city", .null), ("state", .null), ("country", .null),
       ("postal_code", .null)])),
     ("representative", .null), ("events", (.list [])),
     ("filing_date", .null), ("published_date", .null),
     ("goods_services", .null), ("extra_key", (.int (7)))]
    "extra_key" (by unfold NodupKeys; decide) (by decide) (by decide)

/-- C2 (amended): one cleaning pass is a fixed point of
`DataCleaner.clean_trademark` — `clean_trademark (clean_trademark x) =
clean_trademark x` — for every canonical-shaped record `x` (the 14
canonical fields in order plus `raw_data`, scalars string-or-null, owner
the six-key sub-mapping, representative null or the five-key entity)
*whose owner name does not still end in a legal-entity suffix after one
normalization pass*.  The original claim, idempotence for every
canonical-shaped record, fails: suffix stripping removes one trailing
designator per pass (see the counterexample). -/
theorem claim_C2_idempotence_amended (v1 v2 v3 v4 v5 v6 v7 : Value)
    (cls : List Value) (onm oad oct ost oco opc : Value) (rep : Value)
    (evs : List Value) (v8 v9 v10 rd : Value)
    (hnm : ScalarOk onm) (hst : ScalarOk ost) (hco : ScalarOk oco)
    (hpc : ScalarOk opc) (hrep : RepOk rep)
    (hfix : ∀ s, onm = .str s →
      stripLegalSuffix (stripLegalSuffix (normText s)) =
        stripLegalSuffix (normText s)) :
    ∃ y, cleanTrademark (canonObj v1 v2 v3 v4 v5 v6 v7 cls
        (ownerObj onm oad oct ost oco opc) rep evs v8 v9 v10 rd) = some y ∧
      cleanTrademark y = some y := by
  refine ⟨_, cleanTrademark_canonObj v1 v2 v3 v4 v5 v6 v7 cls onm oad oct
    ost oco opc rep evs v8 v9 v10 rd hnm hst hco hpc hrep, ?_⟩
  have h2 := cleanTrademark_canonObj v1 v2 v3 v4 (txSlot v5) (txSlot v6) v7
    cls (nameSlot onm) (txSlot oad) (txSlot oct) (upSlot ost) (upSlot oco)
    (upSlot opc) (repAction rep) evs v8 v9 (txSlot v10) rd
    (nameSlot_scalarOk _ hnm) (upSlot_scalarOk _ hst)
    (upSlot_scalarOk _ hco) (upSlot_scalarOk _ hpc)
    (repAction_repOk rep hrep)
  rw [h2, txSlot_idem v5, txSlot_idem v6, txSlot_idem v10, txSlot_idem oad,
    txSlot_idem oct, upSlot_idem ost, upSlot_idem oco, upSlot_idem opc,
    nameSlot_idem onm hfix, repAction_idem rep hrep]

theorem claim_C2_idempotence_amended_witness :
    ∃ y, cleanTrademark (canonObj .null .null .null .null .null .null .null
        []
        (ownerObj (.str " Acme  Corp. ") .null .null .null (.str "us")
          .null)
        .null [] .null .null .null .null) = some y ∧
      cleanTrademark y = some y :=
  claim_C2_idempotence_amended _ _ _ _ _ _ _ _ _ _ _ _ _ _ _ _ _ _ _ _
    (Or.inr ⟨_, rfl⟩) (Or.inl rfl) (Or.inr ⟨_, rfl⟩) (Or.inl rfl)
    (Or.inl rfl) (fun s h => by cases h; decide)

end Trademark
